import Mathlib

/-!
# numakind high-bandwidth kind: bandwidth classification and closest-node resolution

A shallow embedding of `src/numakind_hbw.c`.

* C `int` values are `Int`; array lengths and loop counters are `Nat`.
* A pointer together with its element count is a `List`; a pointer that may be
  `NULL` is an `Option`.
* Out-parameters are returned next to the error code.
* Calls into libc, libnuma and jemalloc are inputs of the model: allocation
  outcomes are booleans, the topology queries are functions.
* The error constants of `numakind_hbw.h` are a parameter (`ErrorCodes`).
-/

namespace Numakind

/-! ## Data model -/

/-- The `NUMAKIND_ERROR_*` constants used by `numakind_hbw.c`.  They are declared in
`numakind_hbw.h`; the code only relies on them being error codes, so they are
kept abstract. -/
structure ErrorCodes where
  NUMAKIND_ERROR_UNAVAILABLE : Int
  NUMAKIND_ERROR_MALLOC : Int
  NUMAKIND_ERROR_GETCPU : Int
  NUMAKIND_ERROR_PMTT : Int
  NUMAKIND_ERROR_TIEDISTANCE : Int
  NUMAKIND_ERROR_ENVIRON : Int
deriving DecidableEq

/-- Error codes are nonzero (zero is success) and pairwise different. -/
def ErrorCodes.Distinct (E : ErrorCodes) : Prop :=
  List.Nodup [0, E.NUMAKIND_ERROR_UNAVAILABLE, E.NUMAKIND_ERROR_MALLOC,
    E.NUMAKIND_ERROR_GETCPU, E.NUMAKIND_ERROR_PMTT, E.NUMAKIND_ERROR_TIEDISTANCE,
    E.NUMAKIND_ERROR_ENVIRON]

instance (E : ErrorCodes) : Decidable E.Distinct := by
  unfold ErrorCodes.Distinct; infer_instance

/-- A concrete assignment of error codes, used to evaluate the model. -/
def sampleCodes : ErrorCodes :=
  { NUMAKIND_ERROR_UNAVAILABLE := -1
    NUMAKIND_ERROR_MALLOC := -5
    NUMAKIND_ERROR_GETCPU := -6
    NUMAKIND_ERROR_PMTT := -7
    NUMAKIND_ERROR_TIEDISTANCE := -8
    NUMAKIND_ERROR_ENVIRON := -11 }

/-- `INT_MAX` of `<limits.h>` for a 32-bit `int`. -/
def INT_MAX : Int := 2147483647

/-- Mirror of `struct numanode_bandwidth_t`. -/
structure numanode_bandwidth_t where
  numanode : Int
  bandwidth : Int
deriving DecidableEq

/-- Mirror of `struct bandwidth_nodes_t`: `numanodes` is the C pointer together with
its length `num_numanodes`. -/
structure bandwidth_nodes_t where
  bandwidth : Int
  numanodes : List Int
deriving DecidableEq

/-- The field `num_numanodes` of `struct bandwidth_nodes_t`. -/
def bandwidth_nodes_t.num_numanodes (c : bandwidth_nodes_t) : Nat := c.numanodes.length

/-! ## Bandwidth classification -/

/-- The comparison function handed to `qsort`: order by bandwidth, then by node. -/
def numanode_bandwidth_compare (aa bb : numanode_bandwidth_t) : Int :=
  let result : Int :=
    (if aa.bandwidth > bb.bandwidth then 1 else 0) - (if aa.bandwidth < bb.bandwidth then 1 else 0)
  if result = 0 then
    (if aa.numanode > bb.numanode then 1 else 0) - (if aa.numanode < bb.numanode then 1 else 0)
  else result

/-- The order `qsort` sorts by: `a` may stand before `b` when the comparison is not positive. -/
def compare_le (a b : numanode_bandwidth_t) : Prop := numanode_bandwidth_compare a b ≤ 0

instance : DecidableRel compare_le := fun a b => by
  unfold compare_le; infer_instance

/-- libc `qsort` with `numanode_bandwidth_compare`: the array is rearranged into ascending
order of the comparison function.  The entries handed to it have different node ids, so no two
compare equal and the sorted order is unique. -/
def qsort (xs : List numanode_bandwidth_t) : List numanode_bandwidth_t :=
  List.insertionSort compare_le xs

/-- First loop of `create_bandwidth_nodes` ("set sorting array"): entry `i` of the bandwidth
vector is copied, with its index, unless it is zero.  The second argument is the loop index. -/
def set_sorting_array : List Int → Nat → List numanode_bandwidth_t
  | [], _ => []
  | b :: bs, i =>
    if b ≠ 0 then { numanode := (i : Int), bandwidth := b } :: set_sorting_array bs (i + 1)
    else set_sorting_array bs (i + 1)

/-- Second loop of `create_bandwidth_nodes` ("calculate the number of unique bandwidths"),
over the entries from index 1 on; the arguments are `last_bandwidth` and `*num_unique`. -/
def count_unique : List numanode_bandwidth_t → Int → Nat → Nat
  | [], _, num_unique => num_unique
  | x :: xs, last_bandwidth, num_unique =>
    if x.bandwidth ≠ last_bandwidth then count_unique xs x.bandwidth (num_unique + 1)
    else count_unique xs last_bandwidth num_unique

/-- Class record `k` once its count `l` is known: its nodes are the `l` entries of the flat
node array that start at the offset its `numanodes` pointer was set to. -/
def close_class (flat : List Int) (start l : Nat) (last_bandwidth : Int) : bandwidth_nodes_t :=
  { bandwidth := last_bandwidth, numanodes := (flat.drop start).take l }

/-- Third loop of `create_bandwidth_nodes` ("populate output").  `flat` is the node array
`(*bandwidth_nodes)[0].numanodes` (entry `i` is `numanode_bandwidth[i].numanode`), `i` the loop
index, `start` the offset of the open class `k`, `l` its running count, `done` the classes
`0 .. k-1` already closed.  After the loop the open class is closed. -/
def populate_output (flat : List Int) :
    List numanode_bandwidth_t → Nat → Nat → Nat → Int → List bandwidth_nodes_t →
    List bandwidth_nodes_t
  | [], _, start, l, last_bandwidth, done => done ++ [close_class flat start l last_bandwidth]
  | x :: xs, i, start, l, last_bandwidth, done =>
    if x.bandwidth ≠ last_bandwidth then
      populate_output flat xs (i + 1) i 1 x.bandwidth
        (done ++ [close_class flat start l last_bandwidth])
    else populate_output flat xs (i + 1) start (l + 1) last_bandwidth done

/-- Result of `create_bandwidth_nodes`: the return value and the two out-parameters. -/
structure create_result where
  err : Int
  num_unique : Int
  bandwidth_nodes : Option (List bandwidth_nodes_t)
deriving DecidableEq

/-- Model of `create_bandwidth_nodes`.  `scratch_ok` and `output_ok` say whether the two
`je_malloc` calls (sorting array, output array) succeed; `num_unique` is the value the
out-parameter holds before the call. -/
def create_bandwidth_nodes (E : ErrorCodes) (scratch_ok output_ok : Bool)
    (bandwidth : List Int) (num_unique : Int) : create_result :=
  if !scratch_ok then
    { err := E.NUMAKIND_ERROR_MALLOC, num_unique := num_unique, bandwidth_nodes := none }
  else
    let numanode_bandwidth := set_sorting_array bandwidth 0
    let num_bandwidth := numanode_bandwidth.length
    if num_bandwidth = 0 then
      { err := E.NUMAKIND_ERROR_PMTT, num_unique := num_unique, bandwidth_nodes := none }
    else
      let sorted := qsort numanode_bandwidth
      let first_bandwidth := (sorted.headD { numanode := 0, bandwidth := 0 }).bandwidth
      let unique := count_unique sorted.tail first_bandwidth 1
      if !output_ok then
        { err := E.NUMAKIND_ERROR_MALLOC, num_unique := unique, bandwidth_nodes := none }
      else
        { err := 0, num_unique := unique,
          bandwidth_nodes :=
            some (populate_output (sorted.map (·.numanode)) sorted 0 0 0 first_bandwidth []) }

/-! ## Closest-node resolution -/

/-- The libnuma topology queries `numa_node_of_cpu` and `numa_distance`. -/
structure Topology where
  numa_node_of_cpu : Int → Int
  numa_distance : Int → Int → Int

/-- The value `numa_distance` returns is a C `int`: it does not exceed `INT_MAX`. -/
def Topology.InRange (T : Topology) : Prop := ∀ a b : Int, T.numa_distance a b ≤ INT_MAX

/-- Variables of the inner loop of `set_closest_numanode` for one CPU `i`:
`min_distance`, the entry `closest_numanode[i]`, and `err`. -/
structure scan_state where
  min_distance : Int
  closest : Int
  err : Int
deriving DecidableEq

/-- Inner loop of `set_closest_numanode` (`for j < match.num_numanodes`) for CPU `i`. -/
def scan_nodes (E : ErrorCodes) (T : Topology) (i : Int) : List Int → scan_state → scan_state
  | [], s => s
  | n :: ns, s =>
    let distance := T.numa_distance (T.numa_node_of_cpu i) n
    if distance < s.min_distance then
      scan_nodes E T i ns { min_distance := distance, closest := n, err := s.err }
    else if distance = s.min_distance then
      scan_nodes E T i ns { s with err := E.NUMAKIND_ERROR_TIEDISTANCE }
    else scan_nodes E T i ns s

/-- Outer loop of `set_closest_numanode` (`for i < num_cpunode`) over the entries of
`closest_numanode` from index `i` on; `err` is carried from one CPU to the next. -/
def scan_cpus (E : ErrorCodes) (T : Topology) (nodes : List Int) :
    List Int → Nat → Int → Int × List Int
  | [], _, err => (err, [])
  | c :: cs, i, err =>
    let s := scan_nodes E T (i : Int) nodes { min_distance := INT_MAX, closest := c, err := err }
    let r := scan_cpus E T nodes cs (i + 1) s.err
    (r.1, s.closest :: r.2)

/-- Model of `set_closest_numanode`: returns the error code and the contents of
`closest_numanode` (length `num_cpunode`).  `num_unique` is the number of entries of
`bandwidth_nodes` that are searched; it must not exceed the length of the array. -/
def set_closest_numanode (E : ErrorCodes) (T : Topology) (num_unique : Int)
    (bandwidth_nodes : List bandwidth_nodes_t) (target_bandwidth : Int) (num_cpunode : Int) :
    Int × List Int :=
  let closest_numanode := List.replicate num_cpunode.toNat (-1 : Int)
  let match_ : bandwidth_nodes_t :=
    ((bandwidth_nodes.take num_unique.toNat).find? (fun c => c.bandwidth == target_bandwidth)).getD
      { bandwidth := -1, numanodes := [] }
  if match_.bandwidth = -1 then (E.NUMAKIND_ERROR_PMTT, closest_numanode)
  else scan_cpus E T match_.numanodes closest_numanode 0 0

/-! ## Initialisation of the process-wide cache -/

/-- Mirror of `struct numakind_hbw_closest_numanode_t`. -/
structure numakind_hbw_closest_numanode_t where
  init_err : Int
  num_cpu : Int
  closest_numanode : Option (List Int)
deriving DecidableEq

/-- Everything `numakind_hbw_closest_numanode_init` obtains from outside the file. -/
structure Host where
  /-- The constant `NUMA_NUM_NODES` of `<numa.h>`. -/
  NUMA_NUM_NODES : Nat
  /-- Result of `numa_num_configured_cpus()`. -/
  numa_num_configured_cpus : Int
  /-- Whether `je_malloc` of `closest_numanode` succeeds. -/
  closest_malloc_ok : Bool
  /-- Whether `je_malloc` of the `bandwidth` vector succeeds. -/
  bandwidth_malloc_ok : Bool
  /-- Result of `getenv("NUMAKIND_HBW_NODES")`. -/
  hbw_nodes_env : Option String
  /-- The libnuma parser `numa_parse_nodestring`: a bitmask, or `none` for `NULL`. -/
  numa_parse_nodestring : String → Option (List Bool)
  /-- The `int` values stored in the file `NUMAKIND_BANDWIDTH_PATH`; `none` when `fopen` fails. -/
  bandwidth_file : Option (List Int)
  /-- Whether the two `je_malloc` calls inside `create_bandwidth_nodes` succeed. -/
  scratch_malloc_ok : Bool
  output_malloc_ok : Bool
  topology : Topology

/-- The libnuma primitive `numa_bitmask_isbitset`: bits beyond the size read as 0. -/
def numa_bitmask_isbitset (bm : List Bool) (n : Nat) : Bool := bm.getD n false

/-- Model of `parse_node_bandwidth`: the error code and the entries `fread` stored. -/
def parse_node_bandwidth (E : ErrorCodes) (num_bandwidth : Nat) (file : Option (List Int)) :
    Int × List Int :=
  match file with
  | none => (E.NUMAKIND_ERROR_PMTT, [])
  | some contents =>
    let read := contents.take num_bandwidth
    if read.length ≠ num_bandwidth then (E.NUMAKIND_ERROR_PMTT, read) else (0, read)

/-- The loop of `numakind_hbw_closest_numanode_init` that turns the parsed node set into a
bandwidth vector: 2 on the listed nodes, 1 elsewhere. -/
def env_bandwidth (num_nodes : Nat) (hbw_nodes_bm : List Bool) : List Int :=
  (List.range num_nodes).map (fun node => if numa_bitmask_isbitset hbw_nodes_bm node then 2 else 1)

/-- `numakind_hbw_closest_numanode_init`, lines 114-119: the result of the `je_malloc` of
`closest_numanode` (uninitialised memory, shown as zeros) and `init_err` after the check of
the two allocations. -/
def init_alloc (E : ErrorCodes) (H : Host) (g : numakind_hbw_closest_numanode_t) :
    Int × Option (List Int) :=
  let closest_numanode : Option (List Int) :=
    if H.closest_malloc_ok then some (List.replicate H.numa_num_configured_cpus.toNat 0)
    else none
  if !(closest_numanode.isSome && H.bandwidth_malloc_ok) then
    (E.NUMAKIND_ERROR_MALLOC, closest_numanode)
  else (g.init_err, closest_numanode)

/-- `numakind_hbw_closest_numanode_init`, lines 120-143: `init_err` and the `bandwidth`
vector after the environment override or the bandwidth file has been read. -/
def init_bandwidth (E : ErrorCodes) (H : Host) (g : numakind_hbw_closest_numanode_t) :
    Int × List Int :=
  let init_err := (init_alloc E H g).1
  if init_err = 0 then
    match H.hbw_nodes_env with
    | some hbw_nodes_env =>
      match H.numa_parse_nodestring hbw_nodes_env with
      | none => (E.NUMAKIND_ERROR_ENVIRON, [])
      | some hbw_nodes_bm => (init_err, env_bandwidth H.NUMA_NUM_NODES hbw_nodes_bm)
    | none => parse_node_bandwidth E H.NUMA_NUM_NODES H.bandwidth_file
  else (init_err, [])

/-- `numakind_hbw_closest_numanode_init`, lines 144-147: `init_err`, `num_unique` and
`bandwidth_nodes` after the guarded call of `create_bandwidth_nodes`. -/
def init_classes (E : ErrorCodes) (H : Host) (g : numakind_hbw_closest_numanode_t) :
    create_result :=
  let init_err := (init_bandwidth E H g).1
  if init_err = 0 then
    create_bandwidth_nodes E H.scratch_malloc_ok H.output_malloc_ok (init_bandwidth E H g).2 0
  else { err := init_err, num_unique := 0, bandwidth_nodes := none }

/-- `numakind_hbw_closest_numanode_init`, lines 148-152: `init_err` after the check for a
single class. -/
def init_unique (E : ErrorCodes) (H : Host) (g : numakind_hbw_closest_numanode_t) : Int :=
  let init_err := (init_classes E H g).err
  if init_err = 0 then
    if (init_classes E H g).num_unique = 1 then E.NUMAKIND_ERROR_UNAVAILABLE else init_err
  else init_err

/-- `numakind_hbw_closest_numanode_init`, line 154: the value of `high_bandwidth`,
`bandwidth_nodes[num_unique-1].bandwidth`. -/
def init_high_bandwidth (E : ErrorCodes) (H : Host) (g : numakind_hbw_closest_numanode_t) :
    Int :=
  (((init_classes E H g).bandwidth_nodes.getD []).getD
    ((init_classes E H g).num_unique - 1).toNat { bandwidth := 0, numanodes := [] }).bandwidth

/-- `numakind_hbw_closest_numanode_init`, lines 153-158: `init_err` and `closest_numanode`
after the guarded call of `set_closest_numanode`. -/
def init_resolve (E : ErrorCodes) (H : Host) (g : numakind_hbw_closest_numanode_t) :
    Int × Option (List Int) :=
  let init_err := init_unique E H g
  if init_err = 0 then
    let r := set_closest_numanode E H.topology (init_classes E H g).num_unique
      ((init_classes E H g).bandwidth_nodes.getD []) (init_high_bandwidth E H g)
      H.numa_num_configured_cpus
    (r.1, some r.2)
  else (init_err, (init_alloc E H g).2)

/-- Model of `numakind_hbw_closest_numanode_init`, acting on the global `g`: the steps above
in sequence, then the release of the map when an error was recorded (lines 165-170). -/
def numakind_hbw_closest_numanode_init (E : ErrorCodes) (H : Host)
    (g : numakind_hbw_closest_numanode_t) : numakind_hbw_closest_numanode_t :=
  let resolved := init_resolve E H g
  { init_err := resolved.1
    num_cpu := H.numa_num_configured_cpus
    closest_numanode := if resolved.1 ≠ 0 then none else resolved.2 }

/-! ## The capability surface -/

/-- Mirror of libnuma `struct bitmask`: `size` bits stored in `maskp`. -/
structure bitmask where
  size : Nat
  maskp : List Bool
deriving DecidableEq

/-- The libnuma primitive `numa_bitmask_clearall`: bits `0 .. size-1` are set to 0. -/
def numa_bitmask_clearall (bm : bitmask) : bitmask :=
  { bm with maskp := bm.maskp.mapIdx (fun i b => if i < bm.size then false else b) }

/-- The libnuma primitive `numa_bitmask_setbit`; its argument is an `unsigned int`, and
nothing is done when it is not below the size of the bitmask. -/
def numa_bitmask_setbit (bm : bitmask) (n : Int) : bitmask :=
  let n' : Nat := (n % 4294967296).toNat
  if n' < bm.size then { bm with maskp := bm.maskp.set n' true } else bm

/-- The two globals of the file: the `pthread_once` control and the cache. -/
structure process_state where
  once_done : Bool
  g : numakind_hbw_closest_numanode_t
deriving DecidableEq

/-- State of a process at start: `PTHREAD_ONCE_INIT` and a zeroed static cache. -/
def process_start : process_state :=
  { once_done := false, g := { init_err := 0, num_cpu := 0, closest_numanode := none } }

/-- Sequential behaviour of `pthread_once` on `numakind_hbw_closest_numanode_init`. -/
def pthread_once (E : ErrorCodes) (H : Host) (s : process_state) : process_state :=
  if s.once_done then s
  else { once_done := true, g := numakind_hbw_closest_numanode_init E H s.g }

/-- Model of `numakind_hbw_get_mbind_nodemask`.  `nodemask` is the caller's buffer (`none` for
`NULL`; it holds at least `maxnode` bits), `cpu` the value `sched_getcpu()` returns.  The
result is the state of the globals and the return value together with the buffer on return;
it is `none` in place of the latter when the call reads outside `closest_numanode`, where the
behaviour of the C code is undefined. -/
def numakind_hbw_get_mbind_nodemask (E : ErrorCodes) (H : Host) (s : process_state)
    (nodemask : Option (List Bool)) (maxnode : Nat) (cpu : Int) :
    process_state × Option (Int × Option (List Bool)) :=
  let s' := pthread_once E H s
  let g := s'.g
  match nodemask with
  | some bits =>
    if g.init_err = 0 then
      let nodemask_bm := numa_bitmask_clearall { size := maxnode, maskp := bits }
      if cpu < g.num_cpu then
        match g.closest_numanode with
        | some closest =>
          if 0 ≤ cpu ∧ cpu.toNat < closest.length then
            (s', some (g.init_err,
              some (numa_bitmask_setbit nodemask_bm (closest.getD cpu.toNat 0)).maskp))
          else (s', none)
        | none => (s', none)
      else (s', some (E.NUMAKIND_ERROR_GETCPU, some nodemask_bm.maskp))
    else (s', some (g.init_err, nodemask))
  | none => (s', some (g.init_err, nodemask))

/-- Model of `numakind_hbw_is_available`: a probe of the nodemask query with a `NULL` buffer
of size 0. -/
def numakind_hbw_is_available (E : ErrorCodes) (H : Host) (s : process_state) (cpu : Int) :
    process_state × Option Int :=
  let r := numakind_hbw_get_mbind_nodemask E H s none 0 cpu
  (r.1, r.2.map (fun p => if p.1 = 0 then 1 else 0))

/-! ## Auxiliary definitions: a proof device and sample inputs -/

/-- Proof device, not part of the source: the classes `populate_output` produces, written with
the node list `cur` of the open class carried along instead of its offset and count. -/
def runs : List numanode_bandwidth_t → List Int → Int → List bandwidth_nodes_t
  | [], cur, last_bandwidth => [{ bandwidth := last_bandwidth, numanodes := cur }]
  | x :: xs, cur, last_bandwidth =>
    if x.bandwidth ≠ last_bandwidth then
      { bandwidth := last_bandwidth, numanodes := cur } :: runs xs [x.numanode] x.bandwidth
    else runs xs (cur ++ [x.numanode]) last_bandwidth

/-- Sample topology for evaluating the model: every CPU is homed on node 0, node 2 is at
distance 20 and every other node at distance 30. -/
def sampleTopology : Topology :=
  { numa_node_of_cpu := fun _ => 0, numa_distance := fun _ b => if b = 2 then 20 else 30 }

/-- Sample class list for evaluating the model: `{1: [0, 1]}, {2: [2, 3]}`. -/
def sampleClasses : List bandwidth_nodes_t :=
  [{ bandwidth := 1, numanodes := [0, 1] }, { bandwidth := 2, numanodes := [2, 3] }]

/-- Sample host for evaluating the model: four nodes whose bandwidth file holds
`[10, 10, 20, 20]`, two CPUs, no override, every allocation succeeding, the sample topology. -/
def sampleHost : Host :=
  { NUMA_NUM_NODES := 4
    numa_num_configured_cpus := 2
    closest_malloc_ok := true
    bandwidth_malloc_ok := true
    hbw_nodes_env := none
    numa_parse_nodestring := fun _ => none
    bandwidth_file := some [10, 10, 20, 20]
    scratch_malloc_ok := true
    output_malloc_ok := true
    topology := sampleTopology }

/-- The index at which `numakind_hbw_get_mbind_nodemask` reads `closest_numanode` (line 93):
the value of `sched_getcpu()` once it has passed the test `cpu < g->num_cpu`; `none` when the
call does not get to the read. -/
def get_mbind_nodemask_read_index (E : ErrorCodes) (H : Host) (s : process_state)
    (nodemask : Option (List Bool)) (cpu : Int) : Option Int :=
  let g := (pthread_once E H s).g
  match nodemask with
  | some _ => if g.init_err = 0 then (if cpu < g.num_cpu then some cpu else none) else none
  | none => none

/-! ## The policy queries -/

/-- `MAP_PRIVATE` of `<sys/mman.h>` (Linux). -/
def MAP_PRIVATE : Nat := 0x02

/-- `MAP_ANONYMOUS` of `<sys/mman.h>` (Linux). -/
def MAP_ANONYMOUS : Nat := 0x20

/-- `MAP_HUGETLB` of `<sys/mman.h>` (Linux). -/
def MAP_HUGETLB : Nat := 0x40000

/-- `MPOL_PREFERRED` of `<numaif.h>`. -/
def MPOL_PREFERRED : Int := 1

/-- `MPOL_BIND` of `<numaif.h>`, the strict binding mode. -/
def MPOL_BIND : Int := 2

/-- Model of `numakind_hbw_hugetlb_get_mmap_flags`: the globals (which the function does not
touch), the return value and the value stored in `*flags`.  `kind` is the unused argument,
`flags` what `*flags` holds before the call. -/
def numakind_hbw_hugetlb_get_mmap_flags {κ : Type} (_kind : κ) (s : process_state)
    (_flags : Int) : process_state × Int × Int :=
  (s, 0, ((MAP_PRIVATE ||| MAP_ANONYMOUS ||| MAP_HUGETLB : Nat) : Int))

/-- Model of `numakind_hbw_preferred_get_mbind_mode`: the globals (which the function does not
touch), the return value and the value stored in `*mode`. -/
def numakind_hbw_preferred_get_mbind_mode {κ : Type} (_kind : κ) (s : process_state)
    (_mode : Int) : process_state × Int × Int :=
  (s, 0, MPOL_PREFERRED)

/-- Proof device, not part of the source: the indices of the entries of a bandwidth vector that
hold the value `v`, in ascending order, as node ids. -/
def nodes_with_bandwidth (bandwidth : List Int) (v : Int) : List Int :=
  ((List.range bandwidth.length).filter (fun i => bandwidth.getD i 0 = v)).map Int.ofNat

/-- Sample host with an override: four nodes, the override text `2-3` parsed by libnuma to
the node set `{2, 3}`, two CPUs, every allocation succeeding, the sample topology. -/
def sampleOverrideHost : Host :=
  { sampleHost with
    hbw_nodes_env := some "2-3"
    numa_parse_nodestring := fun _ => some [false, false, true, true]
    bandwidth_file := none }

/-! ## Lemmas: the sort order -/

theorem compare_le_iff (a b : numanode_bandwidth_t) :
    compare_le a b ↔
      a.bandwidth < b.bandwidth ∨ (a.bandwidth = b.bandwidth ∧ a.numanode ≤ b.numanode) := by
  unfold compare_le numanode_bandwidth_compare
  dsimp only
  rcases lt_trichotomy a.bandwidth b.bandwidth with h | h | h
  · have h' : ¬ a.bandwidth > b.bandwidth := by omega
    simp [h, h']
  · rcases lt_trichotomy a.numanode b.numanode with k | k | k
    · have k' : ¬ a.numanode > b.numanode := by omega
      simp [h, k, k', le_of_lt k]
    · simp [h, k]
    · have k' : ¬ a.numanode < b.numanode := by omega
      have k'' : ¬ a.numanode ≤ b.numanode := by omega
      simp [h, k, k', k'']
  · have h' : ¬ a.bandwidth < b.bandwidth := by omega
    have h'' : ¬ a.bandwidth = b.bandwidth := by omega
    simp [h, h', h'']

theorem compare_le_total : IsTotal numanode_bandwidth_t compare_le :=
  ⟨fun a b => by rw [compare_le_iff, compare_le_iff]; omega⟩

theorem compare_le_trans : IsTrans numanode_bandwidth_t compare_le :=
  ⟨fun a b c => by rw [compare_le_iff, compare_le_iff, compare_le_iff]; omega⟩

theorem qsort_perm (xs : List numanode_bandwidth_t) : (qsort xs).Perm xs :=
  List.perm_insertionSort _ xs

theorem qsort_sorted (xs : List numanode_bandwidth_t) : (qsort xs).Pairwise compare_le :=
  haveI := compare_le_total
  haveI := compare_le_trans
  List.sorted_insertionSort _ xs

theorem compare_le_antisymm : IsAntisymm numanode_bandwidth_t compare_le :=
  ⟨fun a b hab hba => by
    rw [compare_le_iff] at hab hba
    cases a; cases b
    simp only [numanode_bandwidth_t.mk.injEq] at *
    omega⟩

/-- The comparison function is a total order on the entries, so the ascending arrangement of
an array is unique: the result of `qsort` does not depend on the sorting algorithm. -/
theorem qsort_unique (xs ys : List numanode_bandwidth_t)
    (hp : ys.Perm xs) (hs : ys.Pairwise compare_le) : ys = qsort xs :=
  haveI := compare_le_antisymm
  List.eq_of_perm_of_sorted (hp.trans (qsort_perm xs).symm) hs (qsort_sorted xs)

/-! ## Lemmas: the sorting array -/

theorem mem_set_sorting_array (bs : List Int) (i : Nat) (x : numanode_bandwidth_t) :
    x ∈ set_sorting_array bs i ↔
      ∃ j, ∃ h : j < bs.length, bs[j] ≠ 0 ∧ x = { numanode := ((i + j : Nat) : Int), bandwidth := bs[j] } := by
  induction bs generalizing i x with
  | nil => simp [set_sorting_array]
  | cons b bs ih =>
    unfold set_sorting_array
    constructor
    · intro hx
      split_ifs at hx with hb
      · rcases List.mem_cons.mp hx with rfl | hx
        · exact ⟨0, by simp, by simpa using hb, by simp⟩
        · obtain ⟨j, hj, hne, rfl⟩ := (ih (i + 1) _).mp hx
          refine ⟨j + 1, by simpa using hj, by simpa using hne, ?_⟩
          simp only [List.getElem_cons_succ]
          congr 2; omega
      · obtain ⟨j, hj, hne, rfl⟩ := (ih (i + 1) _).mp hx
        refine ⟨j + 1, by simpa using hj, by simpa using hne, ?_⟩
        simp only [List.getElem_cons_succ]
        congr 2; omega
    · rintro ⟨j, hj, hne, rfl⟩
      cases j with
      | zero =>
        have hb : b ≠ 0 := by simpa using hne
        simp [hb]
      | succ j =>
        have hj' : j < bs.length := by simpa using hj
        have hmem : ({ numanode := ((i + 1 + j : Nat) : Int), bandwidth := bs[j] } : numanode_bandwidth_t)
            ∈ set_sorting_array bs (i + 1) :=
          (ih (i + 1) _).mpr ⟨j, hj', by simpa using hne, rfl⟩
        have he : ((i + (j + 1) : Nat) : Int) = ((i + 1 + j : Nat) : Int) := by congr 1; omega
        simp only [List.getElem_cons_succ, he]
        split_ifs
        · exact List.mem_cons_of_mem _ hmem
        · exact hmem

theorem set_sorting_array_bandwidth (bs : List Int) (i : Nat) :
    (set_sorting_array bs i).map (·.bandwidth) = bs.filter (· ≠ 0) := by
  induction bs generalizing i with
  | nil => simp [set_sorting_array]
  | cons b bs ih =>
    unfold set_sorting_array
    by_cases hb : b = 0
    · simp [hb, ih]
    · simp [hb, ih]

theorem set_sorting_array_nodes_sorted (bs : List Int) (i : Nat) :
    ((set_sorting_array bs i).map (·.numanode)).Pairwise (· < ·) := by
  induction bs generalizing i with
  | nil => simp [set_sorting_array]
  | cons b bs ih =>
    unfold set_sorting_array
    split_ifs with hb
    · simp only [List.map_cons, List.pairwise_cons]
      refine ⟨?_, ih (i + 1)⟩
      intro n hn
      obtain ⟨x, hx, rfl⟩ := List.mem_map.mp hn
      obtain ⟨j, _, _, rfl⟩ := (mem_set_sorting_array bs (i + 1) x).mp hx
      simp only
      omega
    · exact ih (i + 1)

theorem set_sorting_array_length (bs : List Int) (i : Nat) :
    (set_sorting_array bs i).length = (bs.filter (· ≠ 0)).length := by
  rw [← set_sorting_array_bandwidth bs i, List.length_map]

theorem set_sorting_array_eq_nil_iff (bs : List Int) (i : Nat) :
    (set_sorting_array bs i).length = 0 ↔ ∀ x ∈ bs, x = 0 := by
  rw [set_sorting_array_length, List.length_eq_zero, List.filter_eq_nil_iff]
  simp

/-! ## Lemmas: the populate loop -/

theorem populate_output_eq_runs (xs pre : List numanode_bandwidth_t) (start l : Nat)
    (last : Int) (done : List bandwidth_nodes_t) (h : start + l = pre.length) :
    populate_output ((pre ++ xs).map (·.numanode)) xs pre.length start l last done =
      done ++ runs xs ((((pre ++ xs).map (·.numanode)).drop start).take l) last := by
  induction xs generalizing pre start l last done with
  | nil => simp [populate_output, runs, close_class]
  | cons x xs ih =>
    have hflat : pre ++ x :: xs = (pre ++ [x]) ++ xs := by simp
    have hlen : (pre ++ [x]).length = pre.length + 1 := by simp
    unfold populate_output runs
    split_ifs with hb
    · have := ih (pre ++ [x]) pre.length 1 x.bandwidth
        (done ++ [close_class ((pre ++ x :: xs).map (·.numanode)) start l last]) (by simp)
      rw [hlen, ← hflat] at this
      rw [this]
      have hd : (((pre ++ x :: xs).map (·.numanode)).drop pre.length).take 1 = [x.numanode] := by
        rw [List.map_append, List.drop_left' (by simp)]
        simp
      rw [hd]
      simp [close_class]
    · have := ih (pre ++ [x]) start (l + 1) last done (by simp; omega)
      rw [hlen, ← hflat] at this
      rw [this]
      have hd : (((pre ++ x :: xs).map (·.numanode)).drop start).take (l + 1) =
          (((pre ++ x :: xs).map (·.numanode)).drop start).take l ++ [x.numanode] := by
        have hs : start ≤ (pre.map (·.numanode)).length := by simp; omega
        have hl : ((pre.map (·.numanode)).drop start).length = l := by simp; omega
        rw [List.map_append, List.drop_append_of_le_length hs, List.take_left' hl,
          List.take_append_eq_append_take, hl]
        simp
        omega
      rw [hd]

theorem runs_flatMap (xs : List numanode_bandwidth_t) (cur : List Int) (last : Int) :
    (runs xs cur last).flatMap (·.numanodes) = cur ++ xs.map (·.numanode) := by
  induction xs generalizing cur last with
  | nil => simp [runs]
  | cons x xs ih =>
    unfold runs
    split_ifs <;> simp [ih]

theorem runs_length (xs : List numanode_bandwidth_t) (cur : List Int) (last : Int) (n : Nat) :
    count_unique xs last n + 1 = n + (runs xs cur last).length := by
  induction xs generalizing cur last n with
  | nil => simp [runs, count_unique]
  | cons x xs ih =>
    unfold runs count_unique
    split_ifs
    · rw [ih [x.numanode] x.bandwidth (n + 1)]; simp; omega
    · exact ih _ _ _

theorem runs_nonempty (xs : List numanode_bandwidth_t) (cur : List Int) (last : Int)
    (hcur : cur ≠ []) : ∀ c ∈ runs xs cur last, c.numanodes ≠ [] := by
  induction xs generalizing cur last with
  | nil => simpa [runs] using hcur
  | cons x xs ih =>
    unfold runs
    split_ifs
    · intro c hc
      rcases List.mem_cons.mp hc with rfl | hc
      · exact hcur
      · exact ih [x.numanode] x.bandwidth (by simp) c hc
    · exact ih _ _ (by simp)

theorem runs_members (P : Int → Int → Prop) (xs : List numanode_bandwidth_t) (cur : List Int)
    (last : Int) (hcur : ∀ n ∈ cur, P n last) (hxs : ∀ x ∈ xs, P x.numanode x.bandwidth) :
    ∀ c ∈ runs xs cur last, ∀ n ∈ c.numanodes, P n c.bandwidth := by
  induction xs generalizing cur last with
  | nil => simpa [runs] using hcur
  | cons x xs ih =>
    have hx := hxs x (List.mem_cons_self _ _)
    have hxs' : ∀ y ∈ xs, P y.numanode y.bandwidth := fun y hy => hxs y (List.mem_cons_of_mem _ hy)
    unfold runs
    split_ifs with hb
    · intro c hc
      rcases List.mem_cons.mp hc with rfl | hc
      · exact hcur
      · exact ih [x.numanode] x.bandwidth (by simpa using hx) hxs' c hc
    · refine ih _ _ ?_ hxs'
      intro n hn
      rcases List.mem_append.mp hn with hn | hn
      · exact hcur n hn
      · have hb' : x.bandwidth = last := by simpa using hb
        have : n = x.numanode := by simpa using hn
        rw [this, ← hb']; exact hx

theorem runs_bandwidth_mem (xs : List numanode_bandwidth_t) (cur : List Int) (last b : Int) :
    b ∈ (runs xs cur last).map (·.bandwidth) ↔ b = last ∨ b ∈ xs.map (·.bandwidth) := by
  induction xs generalizing cur last with
  | nil => simp [runs]
  | cons x xs ih =>
    unfold runs
    split_ifs with hb
    · simp only [List.map_cons, List.mem_cons, ih]
    · have hb' : x.bandwidth = last := by simpa using hb
      rw [ih]
      simp only [List.map_cons, List.mem_cons, hb']
      tauto

theorem runs_bandwidth_sorted (xs : List numanode_bandwidth_t) (cur : List Int) (last : Int)
    (h : (last :: xs.map (·.bandwidth)).Pairwise (· ≤ ·)) :
    ((runs xs cur last).map (·.bandwidth)).Pairwise (· < ·) := by
  induction xs generalizing cur last with
  | nil => simp [runs]
  | cons x xs ih =>
    simp only [List.map_cons, List.pairwise_cons] at h
    obtain ⟨hlast, hx, hxs⟩ := h
    unfold runs
    split_ifs with hb
    · have hlt : last < x.bandwidth := by
        have := hlast x.bandwidth (List.mem_cons_self _ _)
        omega
      simp only [List.map_cons, List.pairwise_cons]
      refine ⟨?_, ih [x.numanode] x.bandwidth (List.pairwise_cons.mpr ⟨hx, hxs⟩)⟩
      intro b hb'
      rcases (runs_bandwidth_mem xs _ x.bandwidth b).mp hb' with rfl | hb'
      · exact hlt
      · exact lt_of_lt_of_le hlt (hx b hb')
    · refine ih _ last (List.pairwise_cons.mpr ⟨?_, hxs⟩)
      intro b hb'
      exact hlast b (List.mem_cons_of_mem _ hb')

/-! ## Lemmas: `create_bandwidth_nodes` on a vector with a nonzero entry -/

/-- The classes returned for a vector with a nonzero entry, in terms of the sorted array. -/
theorem create_bandwidth_nodes_ok (E : ErrorCodes) (bandwidth : List Int) (nu : Int)
    (h : ∃ x ∈ bandwidth, x ≠ 0) :
    ∃ first rest, qsort (set_sorting_array bandwidth 0) = first :: rest ∧
      create_bandwidth_nodes E true true bandwidth nu =
        { err := 0
          num_unique := ((runs rest [first.numanode] first.bandwidth).length : Nat)
          bandwidth_nodes := some (runs rest [first.numanode] first.bandwidth) } := by
  have hne : (set_sorting_array bandwidth 0).length ≠ 0 := by
    rw [Ne, set_sorting_array_eq_nil_iff]
    push_neg
    exact h
  cases hq : qsort (set_sorting_array bandwidth 0) with
  | nil =>
    have := (qsort_perm (set_sorting_array bandwidth 0)).length_eq
    rw [hq] at this
    exact absurd this.symm hne
  | cons first rest =>
    refine ⟨first, rest, rfl, ?_⟩
    have hp := populate_output_eq_runs (first :: rest) [] 0 0 first.bandwidth [] rfl
    have hr : runs (first :: rest) [] first.bandwidth = runs rest [first.numanode] first.bandwidth := by
      simp [runs]
    have hc := runs_length rest [first.numanode] first.bandwidth 1
    simp only [List.nil_append, List.length_nil, List.drop_zero, List.take_zero, hr] at hp
    unfold create_bandwidth_nodes
    simp only [Bool.not_true, Bool.false_eq_true, if_false, hne, hq, List.headD_cons, List.tail_cons, hp]
    congr 1
    omega

/-- Facts about the sorted array of a bandwidth vector. -/
theorem sorted_array_facts (bandwidth : List Int) :
    ((qsort (set_sorting_array bandwidth 0)).map (·.numanode)).Nodup ∧
    (∀ x ∈ qsort (set_sorting_array bandwidth 0),
      ∃ i, ∃ hi : i < bandwidth.length, x.numanode = (i : Int) ∧ bandwidth[i] ≠ 0 ∧
        x.bandwidth = bandwidth[i]) ∧
    (∀ i, ∀ hi : i < bandwidth.length, bandwidth[i] ≠ 0 →
      (i : Int) ∈ (qsort (set_sorting_array bandwidth 0)).map (·.numanode)) ∧
    (qsort (set_sorting_array bandwidth 0)).length = (bandwidth.filter (· ≠ 0)).length ∧
    (∀ b, b ∈ (qsort (set_sorting_array bandwidth 0)).map (·.bandwidth) ↔
      b ∈ bandwidth.filter (· ≠ 0)) := by
  have hp := qsort_perm (set_sorting_array bandwidth 0)
  have hpn := hp.map (·.numanode)
  have hpb := hp.map (·.bandwidth)
  refine ⟨?_, ?_, ?_, ?_, ?_⟩
  · rw [hpn.nodup_iff]
    exact (set_sorting_array_nodes_sorted bandwidth 0).imp (fun h => ne_of_lt h)
  · intro x hx
    obtain ⟨j, hj, hne, rfl⟩ := (mem_set_sorting_array bandwidth 0 x).mp (hp.subset hx)
    exact ⟨j, hj, by simp, hne, rfl⟩
  · intro i hi hne
    rw [hpn.mem_iff]
    exact List.mem_map.mpr ⟨_, (mem_set_sorting_array bandwidth 0 _).mpr ⟨i, hi, hne, rfl⟩, by simp⟩
  · rw [hp.length_eq, set_sorting_array_length]
  · intro b
    rw [hpb.mem_iff, set_sorting_array_bandwidth]

/-- What `create_bandwidth_nodes` returns for a vector with a nonzero entry: no error,
`num_unique` equal to the length of the class list, classes that are non-empty, hold only
indices of entries with the bandwidth of the class, are strictly ascending in bandwidth, carry
exactly the nonzero values of the vector, and whose node lists laid end to end are the node
column of the sorted array. -/
theorem create_bandwidth_nodes_spec (E : ErrorCodes) (bandwidth : List Int) (nu : Int)
    (h : ∃ x ∈ bandwidth, x ≠ 0) :
    ∃ classes : List bandwidth_nodes_t,
      create_bandwidth_nodes E true true bandwidth nu =
        { err := 0, num_unique := (classes.length : Nat), bandwidth_nodes := some classes } ∧
      (∀ c ∈ classes, c.numanodes ≠ []) ∧
      (∀ c ∈ classes, ∀ n ∈ c.numanodes, ∃ i, ∃ hi : i < bandwidth.length,
        n = (i : Int) ∧ bandwidth[i] ≠ 0 ∧ c.bandwidth = bandwidth[i]) ∧
      (classes.map (·.bandwidth)).Pairwise (· < ·) ∧
      (∀ b, b ∈ classes.map (·.bandwidth) ↔ b ∈ bandwidth.filter (· ≠ 0)) ∧
      classes.flatMap (·.numanodes) =
        (qsort (set_sorting_array bandwidth 0)).map (·.numanode) := by
  obtain ⟨first, rest, hq, hc⟩ := create_bandwidth_nodes_ok E bandwidth nu h
  obtain ⟨-, hmem, -, -, hbw⟩ := sorted_array_facts bandwidth
  have hs := qsort_sorted (set_sorting_array bandwidth 0)
  rw [hq] at hmem hbw hs ⊢
  have hle : (first.bandwidth :: rest.map (·.bandwidth)).Pairwise (· ≤ ·) := by
    have := hs.map (·.bandwidth) (R := compare_le) (S := (· ≤ ·)) (fun a b hab => by
      rw [compare_le_iff] at hab
      show a.bandwidth ≤ b.bandwidth
      omega)
    simpa using this
  refine ⟨runs rest [first.numanode] first.bandwidth, hc,
    runs_nonempty rest [first.numanode] first.bandwidth (by simp), ?_,
    runs_bandwidth_sorted rest [first.numanode] first.bandwidth hle, ?_, ?_⟩
  · refine runs_members
      (fun n b => ∃ i, ∃ hi : i < bandwidth.length, n = (i : Int) ∧ bandwidth[i] ≠ 0 ∧
        b = bandwidth[i]) rest [first.numanode] first.bandwidth ?_
      (fun x hx => hmem x (List.mem_cons_of_mem _ hx))
    intro n hn
    have : n = first.numanode := by simpa using hn
    rw [this]
    exact hmem first (List.mem_cons_self _ _)
  · intro b
    rw [runs_bandwidth_mem, ← hbw]
    simp
  · rw [runs_flatMap]; rfl

/-- When `create_bandwidth_nodes` returns 0, both allocations succeeded and the vector has a
nonzero entry. -/
theorem create_bandwidth_nodes_err_zero (E : ErrorCodes) (hE : E.Distinct)
    (scratch_ok output_ok : Bool) (bandwidth : List Int) (nu : Int)
    (h0 : (create_bandwidth_nodes E scratch_ok output_ok bandwidth nu).err = 0) :
    scratch_ok = true ∧ output_ok = true ∧ ∃ x ∈ bandwidth, x ≠ 0 := by
  have hm : E.NUMAKIND_ERROR_MALLOC ≠ 0 := by
    intro h; simp [ErrorCodes.Distinct, h] at hE
  have hp : E.NUMAKIND_ERROR_PMTT ≠ 0 := by
    intro h; simp [ErrorCodes.Distinct, h] at hE
  unfold create_bandwidth_nodes at h0
  cases scratch_ok with
  | false => simp at h0; exact absurd h0 hm
  | true =>
    by_cases hz : (set_sorting_array bandwidth 0).length = 0
    · simp [hz] at h0; exact absurd h0 hp
    · cases output_ok with
      | false => simp [hz] at h0; exact absurd h0 hm
      | true =>
        refine ⟨rfl, rfl, ?_⟩
        rw [set_sorting_array_eq_nil_iff] at hz
        push_neg at hz
        exact hz

/-- In a class list whose node lists are jointly duplicate-free, a node that occurs at all
occurs in exactly one class position. -/
theorem unique_class_of_nodup (classes : List bandwidth_nodes_t) (n : Int)
    (hnd : (classes.flatMap (·.numanodes)).Nodup) (hn : n ∈ classes.flatMap (·.numanodes)) :
    ∃! k : Nat, ∃ c : bandwidth_nodes_t, classes[k]? = some c ∧ n ∈ c.numanodes := by
  obtain ⟨c, hc, hnc⟩ := List.mem_flatMap.mp hn
  obtain ⟨k, hk⟩ := List.getElem?_of_mem hc
  refine ⟨k, ⟨c, hk, hnc⟩, ?_⟩
  rintro k' ⟨c', hk', hnc'⟩
  have hdis := (List.nodup_flatMap.mp hnd).2
  rw [List.pairwise_iff_getElem] at hdis
  obtain ⟨hlt, hce⟩ := List.getElem?_eq_some_iff.mp hk
  obtain ⟨hlt', hce'⟩ := List.getElem?_eq_some_iff.mp hk'
  rcases lt_trichotomy k' k with hlt'' | heq | hlt''
  · have := hdis k' k hlt' hlt hlt''
    rw [hce, hce'] at this
    exact absurd hnc (this hnc')
  · exact heq
  · have := hdis k k' hlt hlt' hlt''
    rw [hce, hce'] at this
    exact absurd hnc' (this hnc)

/-! ## Claims about `create_bandwidth_nodes` -/

/-- C1: for a bandwidth vector with a nonzero entry (both allocations succeeding) the call
succeeds and the classes partition the nodes of nonzero bandwidth: every index `i` with
`bandwidth[i] ≠ 0` lies in exactly one class position, occurs once in all node lists taken
together, and every class that holds it has bandwidth `bandwidth[i]`; every listed node is an
index of a nonzero entry; no class is empty; the class sizes add up to the number of nonzero
entries. -/
theorem create_bandwidth_nodes_partition (E : ErrorCodes) (bandwidth : List Int) (nu : Int)
    (h : ∃ x ∈ bandwidth, x ≠ 0) :
    ∃ classes : List bandwidth_nodes_t,
      (create_bandwidth_nodes E true true bandwidth nu).err = 0 ∧
      (create_bandwidth_nodes E true true bandwidth nu).bandwidth_nodes = some classes ∧
      (∀ i, ∀ hi : i < bandwidth.length, bandwidth[i] ≠ 0 →
        (∃! k : Nat, ∃ c : bandwidth_nodes_t, classes[k]? = some c ∧ (i : Int) ∈ c.numanodes) ∧
        (∀ c ∈ classes, (i : Int) ∈ c.numanodes → c.bandwidth = bandwidth[i]) ∧
        (classes.flatMap (·.numanodes)).count (i : Int) = 1) ∧
      (∀ c ∈ classes, ∀ n ∈ c.numanodes,
        ∃ i, ∃ hi : i < bandwidth.length, n = (i : Int) ∧ bandwidth[i] ≠ 0) ∧
      (∀ c ∈ classes, c.numanodes ≠ []) ∧
      (classes.map (·.num_numanodes)).sum = (bandwidth.filter (· ≠ 0)).length := by
  obtain ⟨classes, hc, hne, hP, -, -, hflat⟩ := create_bandwidth_nodes_spec E bandwidth nu h
  obtain ⟨hnd, -, hall, hlen, -⟩ := sorted_array_facts bandwidth
  rw [← hflat] at hnd hall
  refine ⟨classes, by rw [hc], by rw [hc], ?_, ?_, hne, ?_⟩
  · intro i hi hnz
    have hin := hall i hi hnz
    refine ⟨unique_class_of_nodup _ _ hnd hin, ?_, List.count_eq_one_of_mem hnd hin⟩
    intro c hc' hic
    obtain ⟨j, hj, hij, -, hb⟩ := hP c hc' _ hic
    have : i = j := by exact_mod_cast hij
    subst this
    exact hb
  · intro c hc' n hn
    obtain ⟨i, hi, hni, hnz, -⟩ := hP c hc' n hn
    exact ⟨i, hi, hni, hnz⟩
  · have := congrArg List.length hflat
    rw [List.length_flatMap, List.length_map, hlen] at this
    rw [← this]
    rfl

/-- Witness for C1 on the vector `[10, 0, 30, 10]`. -/
theorem create_bandwidth_nodes_partition_witness :
    (∃ x ∈ [(10 : Int), 0, 30, 10], x ≠ 0) ∧
    ∃ classes : List bandwidth_nodes_t,
      (create_bandwidth_nodes sampleCodes true true [10, 0, 30, 10] 0).err = 0 ∧
      (create_bandwidth_nodes sampleCodes true true [10, 0, 30, 10] 0).bandwidth_nodes =
        some classes ∧
      (∀ i, ∀ hi : i < [(10 : Int), 0, 30, 10].length, [(10 : Int), 0, 30, 10][i] ≠ 0 →
        (∃! k : Nat, ∃ c : bandwidth_nodes_t, classes[k]? = some c ∧ (i : Int) ∈ c.numanodes) ∧
        (∀ c ∈ classes, (i : Int) ∈ c.numanodes → c.bandwidth = [(10 : Int), 0, 30, 10][i]) ∧
        (classes.flatMap (·.numanodes)).count (i : Int) = 1) ∧
      (∀ c ∈ classes, ∀ n ∈ c.numanodes,
        ∃ i, ∃ hi : i < [(10 : Int), 0, 30, 10].length,
          n = (i : Int) ∧ [(10 : Int), 0, 30, 10][i] ≠ 0) ∧
      (∀ c ∈ classes, c.numanodes ≠ []) ∧
      (classes.map (·.num_numanodes)).sum = ([(10 : Int), 0, 30, 10].filter (· ≠ 0)).length :=
  ⟨⟨10, by decide, by decide⟩,
    create_bandwidth_nodes_partition sampleCodes [10, 0, 30, 10] 0 ⟨10, by decide, by decide⟩⟩

/-- C2: for a bandwidth vector with a nonzero entry the returned class list is strictly
ascending in bandwidth at every adjacent pair, and `num_unique` is both its length and the
number of distinct nonzero values of the vector. -/
theorem create_bandwidth_nodes_ascending (E : ErrorCodes) (bandwidth : List Int) (nu : Int)
    (h : ∃ x ∈ bandwidth, x ≠ 0) :
    ∃ classes : List bandwidth_nodes_t,
      (create_bandwidth_nodes E true true bandwidth nu).err = 0 ∧
      (create_bandwidth_nodes E true true bandwidth nu).bandwidth_nodes = some classes ∧
      (∀ k, ∀ hk : k + 1 < classes.length, classes[k].bandwidth < classes[k + 1].bandwidth) ∧
      (create_bandwidth_nodes E true true bandwidth nu).num_unique = (classes.length : Int) ∧
      classes.length = ((bandwidth.filter (· ≠ 0)).dedup).length := by
  obtain ⟨classes, hc, -, -, hlt, hbw, -⟩ := create_bandwidth_nodes_spec E bandwidth nu h
  refine ⟨classes, by rw [hc], by rw [hc], ?_, by rw [hc], ?_⟩
  · intro k hk
    have := (List.pairwise_iff_getElem.mp hlt) k (k + 1) (by simp; omega) (by simpa using hk)
      (Nat.lt_succ_self k)
    simpa using this
  · have hnd : (classes.map (·.bandwidth)).Nodup := hlt.imp (fun h => ne_of_lt h)
    have hperm : (classes.map (·.bandwidth)).Perm ((bandwidth.filter (· ≠ 0)).dedup) := by
      rw [List.perm_ext_iff_of_nodup hnd (List.nodup_dedup _)]
      intro b
      rw [hbw, List.mem_dedup]
    simpa using hperm.length_eq

/-- Witness for C2 on the vector `[10, 0, 30, 10]`. -/
theorem create_bandwidth_nodes_ascending_witness :
    (∃ x ∈ [(10 : Int), 0, 30, 10], x ≠ 0) ∧
    ∃ classes : List bandwidth_nodes_t,
      (create_bandwidth_nodes sampleCodes true true [10, 0, 30, 10] 0).err = 0 ∧
      (create_bandwidth_nodes sampleCodes true true [10, 0, 30, 10] 0).bandwidth_nodes =
        some classes ∧
      (∀ k, ∀ hk : k + 1 < classes.length, classes[k].bandwidth < classes[k + 1].bandwidth) ∧
      (create_bandwidth_nodes sampleCodes true true [10, 0, 30, 10] 0).num_unique =
        (classes.length : Int) ∧
      classes.length = (([(10 : Int), 0, 30, 10].filter (· ≠ 0)).dedup).length :=
  ⟨⟨10, by decide, by decide⟩,
    create_bandwidth_nodes_ascending sampleCodes [10, 0, 30, 10] 0 ⟨10, by decide, by decide⟩⟩

/-- C9: with the sorting array allocated, `create_bandwidth_nodes` returns
`NUMAKIND_ERROR_PMTT` exactly when every entry of the bandwidth vector is zero (the vector may
have any length, also zero), whether or not the output array can be allocated; and with both
allocations succeeding it returns 0 whenever some entry is nonzero. -/
theorem create_bandwidth_nodes_pmtt_iff (E : ErrorCodes) (hE : E.Distinct)
    (bandwidth : List Int) (nu : Int) :
    (∀ output_ok : Bool,
      (create_bandwidth_nodes E true output_ok bandwidth nu).err = E.NUMAKIND_ERROR_PMTT ↔
        ∀ x ∈ bandwidth, x = 0) ∧
    ((∃ x ∈ bandwidth, x ≠ 0) → (create_bandwidth_nodes E true true bandwidth nu).err = 0) := by
  have hp : E.NUMAKIND_ERROR_PMTT ≠ 0 := by
    intro h; simp [ErrorCodes.Distinct, h] at hE
  have hpm : E.NUMAKIND_ERROR_MALLOC ≠ E.NUMAKIND_ERROR_PMTT := by
    intro h; simp [ErrorCodes.Distinct, h] at hE
  have hok : (∃ x ∈ bandwidth, x ≠ 0) →
      (create_bandwidth_nodes E true true bandwidth nu).err = 0 := by
    intro h
    obtain ⟨first, rest, -, hc⟩ := create_bandwidth_nodes_ok E bandwidth nu h
    rw [hc]
  refine ⟨fun output_ok => ⟨?_, ?_⟩, hok⟩
  · intro herr
    by_contra hcon
    push_neg at hcon
    cases output_ok with
    | true =>
      rw [hok hcon] at herr
      exact hp herr.symm
    | false =>
      have hne : (set_sorting_array bandwidth 0).length ≠ 0 := by
        rw [Ne, set_sorting_array_eq_nil_iff]
        push_neg
        exact hcon
      unfold create_bandwidth_nodes at herr
      simp only [Bool.not_true, Bool.false_eq_true, if_false, hne, Bool.not_false, if_true]
        at herr
      exact hpm herr
  · intro hz
    have h0 := (set_sorting_array_eq_nil_iff bandwidth 0).mpr hz
    unfold create_bandwidth_nodes
    simp [h0]

/-- Witness for C9 with the sample error codes on the vector `[0, 0, 0]`. -/
theorem create_bandwidth_nodes_pmtt_iff_witness :
    sampleCodes.Distinct ∧
    (create_bandwidth_nodes sampleCodes true true [0, 0, 0] 0).err =
      sampleCodes.NUMAKIND_ERROR_PMTT :=
  ⟨by decide,
    ((create_bandwidth_nodes_pmtt_iff sampleCodes (by decide) [0, 0, 0] 0).1 true).mpr
      (by decide)⟩

/-! ## Lemmas: the scan over the nodes of the target class -/

theorem scan_nodes_err (E : ErrorCodes) (T : Topology) (i : Int) (ns : List Int)
    (s : scan_state) :
    (scan_nodes E T i ns s).err = s.err ∨
      (scan_nodes E T i ns s).err = E.NUMAKIND_ERROR_TIEDISTANCE := by
  induction ns generalizing s with
  | nil => simp [scan_nodes]
  | cons n ns ih =>
    unfold scan_nodes
    dsimp only
    split_ifs
    · exact ih _
    · rcases ih { s with err := E.NUMAKIND_ERROR_TIEDISTANCE } with h | h <;> exact Or.inr h
    · exact ih _

/-- The node and distance found by the scan do not depend on the error carried along. -/
theorem scan_nodes_closest_indep (E : ErrorCodes) (T : Topology) (i : Int) (ns : List Int)
    (m c e e' : Int) :
    (scan_nodes E T i ns { min_distance := m, closest := c, err := e }).closest =
      (scan_nodes E T i ns { min_distance := m, closest := c, err := e' }).closest := by
  induction ns generalizing m c e e' with
  | nil => simp [scan_nodes]
  | cons n ns ih =>
    unfold scan_nodes
    dsimp only
    split_ifs
    · exact ih _ _ _ _
    · exact ih _ _ _ _
    · exact ih _ _ _ _

/-- A scan that ends without error either never updates, every distance being above the
initial minimum, or ends on a member whose distance is below the initial minimum and strictly
below the distance of every other node. -/
theorem scan_nodes_ok (E : ErrorCodes) (hE : E.NUMAKIND_ERROR_TIEDISTANCE ≠ 0) (T : Topology)
    (i : Int) (ns : List Int) (s : scan_state) (h0 : (scan_nodes E T i ns s).err = 0) :
    ((scan_nodes E T i ns s).min_distance = s.min_distance ∧
      (scan_nodes E T i ns s).closest = s.closest ∧
      ∀ n ∈ ns, s.min_distance < T.numa_distance (T.numa_node_of_cpu i) n) ∨
    ((scan_nodes E T i ns s).closest ∈ ns ∧
      T.numa_distance (T.numa_node_of_cpu i) (scan_nodes E T i ns s).closest =
        (scan_nodes E T i ns s).min_distance ∧
      (scan_nodes E T i ns s).min_distance < s.min_distance ∧
      ∀ n ∈ ns, n ≠ (scan_nodes E T i ns s).closest →
        (scan_nodes E T i ns s).min_distance < T.numa_distance (T.numa_node_of_cpu i) n) := by
  induction ns generalizing s with
  | nil => simp [scan_nodes]
  | cons n ns ih =>
    unfold scan_nodes at h0 ⊢
    dsimp only at h0 ⊢
    split_ifs at h0 ⊢ with hlt heq
    · right
      rcases ih _ h0 with ⟨hm, hc, hall⟩ | ⟨hc, hd, hm, hall⟩
      · dsimp only at hm hc hall
        refine ⟨by rw [hc]; exact List.mem_cons_self _ _, by rw [hc, hm], by rw [hm]; exact hlt, ?_⟩
        intro k hk hne
        rw [hc] at hne
        rcases List.mem_cons.mp hk with rfl | hk
        · exact absurd rfl hne
        · rw [hm]; exact hall k hk
      · dsimp only at hm
        refine ⟨List.mem_cons_of_mem _ hc, hd, lt_trans hm hlt, ?_⟩
        intro k hk hne
        rcases List.mem_cons.mp hk with rfl | hk
        · exact hm
        · exact hall k hk hne
    · exfalso
      rcases scan_nodes_err E T i ns { s with err := E.NUMAKIND_ERROR_TIEDISTANCE } with h | h
      · rw [h0] at h; exact hE h.symm
      · rw [h0] at h; exact hE h.symm
    · have hgt : s.min_distance < T.numa_distance (T.numa_node_of_cpu i) n := by omega
      rcases ih _ h0 with ⟨hm, hc, hall⟩ | ⟨hc, hd, hm, hall⟩
      · left
        refine ⟨hm, hc, ?_⟩
        intro k hk
        rcases List.mem_cons.mp hk with rfl | hk
        · exact hgt
        · exact hall k hk
      · right
        refine ⟨List.mem_cons_of_mem _ hc, hd, hm, ?_⟩
        intro k hk hne
        rcases List.mem_cons.mp hk with rfl | hk
        · exact lt_trans hm hgt
        · exact hall k hk hne

/-- When no distance is below the current minimum and some node is exactly at it, the scan
ends with the tie error. -/
theorem scan_nodes_tie_at_min (E : ErrorCodes) (T : Topology) (i : Int) (ns : List Int)
    (s : scan_state)
    (hlow : ∀ n ∈ ns, s.min_distance ≤ T.numa_distance (T.numa_node_of_cpu i) n)
    (hex : ∃ n ∈ ns, T.numa_distance (T.numa_node_of_cpu i) n = s.min_distance) :
    (scan_nodes E T i ns s).err = E.NUMAKIND_ERROR_TIEDISTANCE := by
  induction ns generalizing s with
  | nil => simp at hex
  | cons n ns ih =>
    have hn := hlow n (List.mem_cons_self _ _)
    unfold scan_nodes
    dsimp only
    split_ifs with hlt heq
    · omega
    · rcases scan_nodes_err E T i ns { s with err := E.NUMAKIND_ERROR_TIEDISTANCE } with h | h
      · exact h
      · exact h
    · refine ih s (fun k hk => hlow k (List.mem_cons_of_mem _ hk)) ?_
      obtain ⟨k, hk, hkd⟩ := hex
      rcases List.mem_cons.mp hk with rfl | hk
      · exact absurd hkd heq
      · exact ⟨k, hk, hkd⟩

/-- Two different nodes at the minimum distance of the list make the scan end with the tie
error, whatever minimum (not below theirs) and error it starts from. -/
theorem scan_nodes_tie (E : ErrorCodes) (T : Topology) (i : Int) (ns : List Int)
    (s : scan_state) (n₁ n₂ : Int) (h₁ : n₁ ∈ ns) (h₂ : n₂ ∈ ns) (hne : n₁ ≠ n₂)
    (hmin : ∀ n ∈ ns, T.numa_distance (T.numa_node_of_cpu i) n₁ ≤
      T.numa_distance (T.numa_node_of_cpu i) n)
    (heq : T.numa_distance (T.numa_node_of_cpu i) n₂ = T.numa_distance (T.numa_node_of_cpu i) n₁)
    (hs : T.numa_distance (T.numa_node_of_cpu i) n₁ ≤ s.min_distance) :
    (scan_nodes E T i ns s).err = E.NUMAKIND_ERROR_TIEDISTANCE := by
  induction ns generalizing s with
  | nil => simp at h₁
  | cons n ns ih =>
    have hn := hmin n (List.mem_cons_self _ _)
    have hmin' : ∀ k ∈ ns, T.numa_distance (T.numa_node_of_cpu i) n₁ ≤
        T.numa_distance (T.numa_node_of_cpu i) k := fun k hk => hmin k (List.mem_cons_of_mem _ hk)
    unfold scan_nodes
    dsimp only
    split_ifs with hlt heq'
    · -- the minimum is lowered to the distance of `n`
      by_cases hd : T.numa_distance (T.numa_node_of_cpu i) n =
          T.numa_distance (T.numa_node_of_cpu i) n₁
      · refine scan_nodes_tie_at_min E T i ns _ (fun k hk => by dsimp only; rw [hd]; exact hmin' k hk) ?_
        dsimp only
        rcases List.mem_cons.mp h₁ with e₁ | h₁'
        · rcases List.mem_cons.mp h₂ with e₂ | h₂'
          · exact absurd (e₁.trans e₂.symm) hne
          · exact ⟨n₂, h₂', by rw [heq, hd]⟩
        · exact ⟨n₁, h₁', hd.symm⟩
      · have hn₁ : n₁ ∈ ns := by
          rcases List.mem_cons.mp h₁ with e | h
          · rw [e] at hd; exact absurd rfl hd
          · exact h
        have hn₂ : n₂ ∈ ns := by
          rcases List.mem_cons.mp h₂ with e | h
          · rw [e] at heq; exact absurd heq hd
          · exact h
        exact ih _ hn₁ hn₂ hmin' hn
    · rcases scan_nodes_err E T i ns { s with err := E.NUMAKIND_ERROR_TIEDISTANCE } with h | h
      · exact h
      · exact h
    · have hd : T.numa_distance (T.numa_node_of_cpu i) n ≠
          T.numa_distance (T.numa_node_of_cpu i) n₁ := by omega
      have hn₁ : n₁ ∈ ns := by
        rcases List.mem_cons.mp h₁ with e | h
        · rw [e] at hd; exact absurd rfl hd
        · exact h
      have hn₂ : n₂ ∈ ns := by
        rcases List.mem_cons.mp h₂ with e | h
        · rw [e] at heq; exact absurd heq hd
        · exact h
      exact ih s hn₁ hn₂ hmin' hs

/-! ## Lemmas: the loop over the CPUs -/

theorem scan_cpus_length (E : ErrorCodes) (T : Topology) (nodes cs : List Int) (i : Nat)
    (err : Int) : (scan_cpus E T nodes cs i err).2.length = cs.length := by
  induction cs generalizing i err with
  | nil => simp [scan_cpus]
  | cons c cs ih => simp [scan_cpus, ih]

theorem scan_cpus_err (E : ErrorCodes) (T : Topology) (nodes cs : List Int) (i : Nat)
    (err : Int) :
    (scan_cpus E T nodes cs i err).1 = err ∨
      (scan_cpus E T nodes cs i err).1 = E.NUMAKIND_ERROR_TIEDISTANCE := by
  induction cs generalizing i err with
  | nil => simp [scan_cpus]
  | cons c cs ih =>
    unfold scan_cpus
    dsimp only
    rcases ih (i + 1) (scan_nodes E T (i : Int) nodes
      { min_distance := INT_MAX, closest := c, err := err }).err with h | h
    · rw [h]
      exact scan_nodes_err E T _ nodes _
    · exact Or.inr h

/-- When the loop over the CPUs ends without error, it started without error, and entry `j`
is what the scan for CPU `i + j` found, that scan ending without error too. -/
theorem scan_cpus_ok (E : ErrorCodes) (hE : E.NUMAKIND_ERROR_TIEDISTANCE ≠ 0) (T : Topology)
    (nodes cs : List Int) (i : Nat) (err : Int)
    (h0 : (scan_cpus E T nodes cs i err).1 = 0) :
    err = 0 ∧
    ∀ j, ∀ hj : j < cs.length,
      (scan_nodes E T ((i + j : Nat) : Int) nodes
        { min_distance := INT_MAX, closest := cs[j], err := 0 }).err = 0 ∧
      (scan_cpus E T nodes cs i err).2[j]? =
        some (scan_nodes E T ((i + j : Nat) : Int) nodes
          { min_distance := INT_MAX, closest := cs[j], err := 0 }).closest := by
  induction cs generalizing i err with
  | nil => simpa [scan_cpus] using h0
  | cons c cs ih =>
    unfold scan_cpus at h0 ⊢
    dsimp only at h0 ⊢
    obtain ⟨hs, hrest⟩ := ih (i + 1) _ h0
    have herr : err = 0 := by
      rcases scan_nodes_err E T (i : Int) nodes
        { min_distance := INT_MAX, closest := c, err := err } with h | h
      · rw [hs] at h; exact h.symm
      · rw [hs] at h; exact absurd h.symm hE
    subst herr
    refine ⟨rfl, ?_⟩
    intro j hj
    cases j with
    | zero => exact ⟨by simpa using hs, by simp⟩
    | succ j =>
      have hj' : j < cs.length := by simpa using hj
      have he : i + (j + 1) = i + 1 + j := by omega
      have := hrest j hj'
      simp only [List.getElem_cons_succ, List.getElem?_cons_succ, he]
      exact this

/-- When the scan of one CPU ends with the tie error from every starting error, so does the
loop over the CPUs. -/
theorem scan_cpus_tie (E : ErrorCodes) (T : Topology) (nodes cs : List Int) (i : Nat)
    (err : Int) (j : Nat) (hj : j < cs.length)
    (ht : ∀ e, (scan_nodes E T ((i + j : Nat) : Int) nodes
      { min_distance := INT_MAX, closest := cs[j], err := e }).err =
        E.NUMAKIND_ERROR_TIEDISTANCE) :
    (scan_cpus E T nodes cs i err).1 = E.NUMAKIND_ERROR_TIEDISTANCE := by
  induction cs generalizing i err j with
  | nil => simp at hj
  | cons c cs ih =>
    unfold scan_cpus
    dsimp only
    cases j with
    | zero =>
      have h := ht err
      simp only [Nat.add_zero, List.getElem_cons_zero] at h
      rw [h]
      rcases scan_cpus_err E T nodes cs (i + 1) E.NUMAKIND_ERROR_TIEDISTANCE with h' | h'
      · exact h'
      · exact h'
    | succ j =>
      have hj' : j < cs.length := by simpa using hj
      have he : i + (j + 1) = i + 1 + j := by omega
      refine ih (i + 1) _ j hj' ?_
      intro e
      have h := ht e
      simp only [List.getElem_cons_succ, he] at h
      exact h

/-- The class `set_closest_numanode` selects: the first one whose bandwidth is the target. -/
theorem set_closest_numanode_found (E : ErrorCodes) (T : Topology)
    (bandwidth_nodes : List bandwidth_nodes_t) (target num_cpunode : Int) (c : bandwidth_nodes_t)
    (hfind : bandwidth_nodes.find? (fun c => c.bandwidth == target) = some c)
    (ht : target ≠ -1) :
    set_closest_numanode E T bandwidth_nodes.length bandwidth_nodes target num_cpunode =
      scan_cpus E T c.numanodes (List.replicate num_cpunode.toNat (-1)) 0 0 := by
  have hb : c.bandwidth = target := by
    have := List.find?_some hfind
    simpa using this
  unfold set_closest_numanode
  simp only [Int.toNat_ofNat, List.take_length, hfind, Option.getD_some, hb, ht, if_false]

/-- Without error the search of `set_closest_numanode` has found a class. -/
theorem set_closest_numanode_ok_found (E : ErrorCodes) (hE : E.NUMAKIND_ERROR_PMTT ≠ 0)
    (T : Topology) (bandwidth_nodes : List bandwidth_nodes_t) (target num_cpunode : Int)
    (h0 : (set_closest_numanode E T bandwidth_nodes.length bandwidth_nodes target
      num_cpunode).1 = 0) :
    target ≠ -1 ∧ ∃ c, bandwidth_nodes.find? (fun c => c.bandwidth == target) = some c := by
  unfold set_closest_numanode at h0
  simp only [Int.toNat_ofNat, List.take_length] at h0
  cases hfind : bandwidth_nodes.find? (fun c => c.bandwidth == target) with
  | none =>
    rw [hfind] at h0
    simp at h0
    exact absurd h0 hE
  | some c =>
    have hb : c.bandwidth = target := by
      have := List.find?_some hfind
      simpa using this
    rw [hfind] at h0
    simp only [Option.getD_some, hb] at h0
    split_ifs at h0 with ht
    · exact absurd h0 hE
    · exact ⟨ht, c, rfl⟩

/-- What a return value of 0 of `set_closest_numanode` means, for a class list without
empty classes: the first class of the target bandwidth exists and every entry of
`closest_numanode` is its member of strictly smallest distance. -/
theorem set_closest_numanode_spec (E : ErrorCodes) (hE : E.Distinct) (T : Topology)
    (hT : T.InRange) (bandwidth_nodes : List bandwidth_nodes_t) (target num_cpunode : Int)
    (hne : ∀ c ∈ bandwidth_nodes, c.numanodes ≠ [])
    (h0 : (set_closest_numanode E T bandwidth_nodes.length bandwidth_nodes target
      num_cpunode).1 = 0) :
    ∃ c, bandwidth_nodes.find? (fun c => c.bandwidth == target) = some c ∧
      c.bandwidth = target ∧
      (set_closest_numanode E T bandwidth_nodes.length bandwidth_nodes target
        num_cpunode).2.length = num_cpunode.toNat ∧
      ∀ i : Nat, (i : Int) < num_cpunode →
        ∃ node, (set_closest_numanode E T bandwidth_nodes.length bandwidth_nodes target
            num_cpunode).2[i]? = some node ∧
          node ∈ c.numanodes ∧
          (∀ n ∈ c.numanodes, n ≠ node →
            T.numa_distance (T.numa_node_of_cpu i) node < T.numa_distance (T.numa_node_of_cpu i) n) ∧
          ((-1 : Int) ∉ c.numanodes → node ≠ -1) := by
  have hpm : E.NUMAKIND_ERROR_PMTT ≠ 0 := by
    intro h; simp [ErrorCodes.Distinct, h] at hE
  have htie : E.NUMAKIND_ERROR_TIEDISTANCE ≠ 0 := by
    intro h; simp [ErrorCodes.Distinct, h] at hE
  obtain ⟨ht, c, hfind⟩ := set_closest_numanode_ok_found E hpm T bandwidth_nodes target
    num_cpunode h0
  have hb : c.bandwidth = target := by
    have := List.find?_some hfind
    simpa using this
  have hcmem : c ∈ bandwidth_nodes := List.mem_of_find?_eq_some hfind
  rw [set_closest_numanode_found E T bandwidth_nodes target num_cpunode c hfind ht] at h0 ⊢
  obtain ⟨-, hall⟩ := scan_cpus_ok E htie T c.numanodes _ 0 0 h0
  refine ⟨c, hfind, hb, by rw [scan_cpus_length, List.length_replicate], ?_⟩
  intro i hi
  have hi' : i < (List.replicate num_cpunode.toNat (-1 : Int)).length := by
    rw [List.length_replicate]; omega
  obtain ⟨herr, hget⟩ := hall i hi'
  simp only [Nat.zero_add, List.getElem_replicate] at herr hget
  refine ⟨_, hget, ?_⟩
  rcases scan_nodes_ok E htie T (i : Int) c.numanodes _ herr with ⟨-, -, habove⟩ | ⟨hmem, hd, -, hlt⟩
  · exfalso
    obtain ⟨n, hn⟩ := List.exists_mem_of_ne_nil _ (hne c hcmem)
    have h1 := habove n hn
    have h2 := hT (T.numa_node_of_cpu i) n
    dsimp only at h1
    omega
  · refine ⟨hmem, ?_, ?_⟩
    · intro n hn hnn
      rw [hd]
      exact hlt n hn hnn
    · intro hno heq
      rw [heq] at hmem
      exact hno hmem

/-! ## Claims about `set_closest_numanode` -/

/-- C3: for a class list without empty classes, whenever `set_closest_numanode` returns 0 the
list has a class of the target bandwidth, `closest_numanode` has one entry for each CPU below
`num_cpunode`, and each entry is a member of that class whose distance from the CPU's home node
is strictly smaller than the distance of every other node of the class; in particular the entry
is not the value -1 written before the scan unless -1 is itself listed as a node. -/
theorem set_closest_numanode_resolved (E : ErrorCodes) (hE : E.Distinct) (T : Topology)
    (hT : T.InRange) (bandwidth_nodes : List bandwidth_nodes_t) (target num_cpunode : Int)
    (hne : ∀ c ∈ bandwidth_nodes, c.numanodes ≠ [])
    (h0 : (set_closest_numanode E T bandwidth_nodes.length bandwidth_nodes target
      num_cpunode).1 = 0) :
    ∃ c, bandwidth_nodes.find? (fun c => c.bandwidth == target) = some c ∧
      c.bandwidth = target ∧
      (set_closest_numanode E T bandwidth_nodes.length bandwidth_nodes target
        num_cpunode).2.length = num_cpunode.toNat ∧
      ∀ i : Nat, (i : Int) < num_cpunode →
        ∃ node, (set_closest_numanode E T bandwidth_nodes.length bandwidth_nodes target
            num_cpunode).2[i]? = some node ∧
          node ∈ c.numanodes ∧
          (∀ n ∈ c.numanodes, n ≠ node →
            T.numa_distance (T.numa_node_of_cpu i) node < T.numa_distance (T.numa_node_of_cpu i) n) ∧
          ((-1 : Int) ∉ c.numanodes → node ≠ -1) :=
  set_closest_numanode_spec E hE T hT bandwidth_nodes target num_cpunode hne h0

theorem sampleTopology_inRange : sampleTopology.InRange := by
  intro a b
  unfold sampleTopology INT_MAX
  dsimp only
  split_ifs <;> decide

/-- Witness for C3: the sample class list, target 2, two CPUs, the sample topology. -/
theorem set_closest_numanode_resolved_witness :
    (set_closest_numanode sampleCodes sampleTopology sampleClasses.length sampleClasses 2 2).1 = 0 ∧
    ∃ c, sampleClasses.find? (fun c => c.bandwidth == 2) = some c ∧
      c.bandwidth = 2 ∧
      (set_closest_numanode sampleCodes sampleTopology sampleClasses.length sampleClasses 2
        2).2.length = (2 : Int).toNat ∧
      ∀ i : Nat, (i : Int) < 2 →
        ∃ node, (set_closest_numanode sampleCodes sampleTopology sampleClasses.length
            sampleClasses 2 2).2[i]? = some node ∧
          node ∈ c.numanodes ∧
          (∀ n ∈ c.numanodes, n ≠ node →
            sampleTopology.numa_distance (sampleTopology.numa_node_of_cpu i) node <
              sampleTopology.numa_distance (sampleTopology.numa_node_of_cpu i) n) ∧
          ((-1 : Int) ∉ c.numanodes → node ≠ -1) :=
  ⟨by decide,
    set_closest_numanode_resolved sampleCodes (by decide) sampleTopology sampleTopology_inRange
      sampleClasses 2 2 (by decide) (by decide)⟩

/-- C4 as amended: when the first class of the target bandwidth exists, the target is not the
value -1 that the code reserves for "no class found", and for some CPU below `num_cpunode` two
different nodes of that class are both at the minimum distance of the class, then
`set_closest_numanode` returns `NUMAKIND_ERROR_TIEDISTANCE`, wherever that CPU stands in the
loop and however the other CPUs resolve. -/
theorem set_closest_numanode_tie (E : ErrorCodes) (T : Topology) (hT : T.InRange)
    (bandwidth_nodes : List bandwidth_nodes_t) (target num_cpunode : Int)
    (c : bandwidth_nodes_t)
    (hfind : bandwidth_nodes.find? (fun c => c.bandwidth == target) = some c)
    (ht : target ≠ -1)
    (i : Nat) (hi : (i : Int) < num_cpunode) (n₁ n₂ : Int)
    (h₁ : n₁ ∈ c.numanodes) (h₂ : n₂ ∈ c.numanodes) (hne : n₁ ≠ n₂)
    (hmin : ∀ n ∈ c.numanodes,
      T.numa_distance (T.numa_node_of_cpu i) n₁ ≤ T.numa_distance (T.numa_node_of_cpu i) n)
    (heq : T.numa_distance (T.numa_node_of_cpu i) n₂ = T.numa_distance (T.numa_node_of_cpu i) n₁) :
    (set_closest_numanode E T bandwidth_nodes.length bandwidth_nodes target num_cpunode).1 =
      E.NUMAKIND_ERROR_TIEDISTANCE := by
  rw [set_closest_numanode_found E T bandwidth_nodes target num_cpunode c hfind ht]
  have hi' : i < (List.replicate num_cpunode.toNat (-1 : Int)).length := by
    rw [List.length_replicate]; omega
  refine scan_cpus_tie E T c.numanodes _ 0 0 i hi' ?_
  intro e
  simp only [Nat.zero_add]
  exact scan_nodes_tie E T (i : Int) c.numanodes _ n₁ n₂ h₁ h₂ hne hmin heq
    (hT (T.numa_node_of_cpu i) n₁)

/-- Witness for C4 as amended: target class `{2: [2, 3]}` with all distances equal; the tie
of CPU 0 is reported for three CPUs. -/
theorem set_closest_numanode_tie_witness :
    (set_closest_numanode sampleCodes
      { numa_node_of_cpu := fun _ => 0, numa_distance := fun _ _ => 10 }
      sampleClasses.length sampleClasses 2 3).1 = sampleCodes.NUMAKIND_ERROR_TIEDISTANCE :=
  set_closest_numanode_tie sampleCodes
    { numa_node_of_cpu := fun _ => 0, numa_distance := fun _ _ => 10 }
    (fun _ _ => by show (10 : Int) ≤ INT_MAX; decide) sampleClasses 2 3 { bandwidth := 2, numanodes := [2, 3] }
    (by decide) (by decide) 0 (by decide) 2 3 (by decide) (by decide) (by decide)
    (fun _ _ => le_refl _) rfl

/-- C4 fails as stated when the target bandwidth is -1: the class `{-1: [0, 1]}` is in the
list and both of its nodes are at the minimum distance 10 of CPU 0, yet the call returns
`NUMAKIND_ERROR_PMTT`, which is not the tie error. -/
theorem set_closest_numanode_tie_counterexample :
    ([{ bandwidth := -1, numanodes := [0, 1] }] : List bandwidth_nodes_t).find?
        (fun c => c.bandwidth == -1) = some { bandwidth := -1, numanodes := [0, 1] } ∧
    (set_closest_numanode sampleCodes
      { numa_node_of_cpu := fun _ => 0, numa_distance := fun _ _ => 10 }
      1 [{ bandwidth := -1, numanodes := [0, 1] }] (-1) 1).1 = sampleCodes.NUMAKIND_ERROR_PMTT ∧
    sampleCodes.NUMAKIND_ERROR_PMTT ≠ sampleCodes.NUMAKIND_ERROR_TIEDISTANCE := by
  decide

/-! ## Lemmas: initialisation -/

theorem init_error_discards (E : ErrorCodes) (H : Host) (g : numakind_hbw_closest_numanode_t)
    (h : (numakind_hbw_closest_numanode_init E H g).init_err ≠ 0) :
    (numakind_hbw_closest_numanode_init E H g).closest_numanode = none := by
  unfold numakind_hbw_closest_numanode_init at h ⊢
  dsimp only at h ⊢
  rw [if_pos h]

/-- A successful initialisation went through every step: the bandwidth vector was read, the
classification succeeded with more than one class, and the map is the one written by
`set_closest_numanode`, which returned 0. -/
theorem init_success_steps (E : ErrorCodes) (hE : E.Distinct) (H : Host)
    (g : numakind_hbw_closest_numanode_t)
    (h0 : (numakind_hbw_closest_numanode_init E H g).init_err = 0) :
    (init_bandwidth E H g).1 = 0 ∧
    init_classes E H g =
      create_bandwidth_nodes E H.scratch_malloc_ok H.output_malloc_ok (init_bandwidth E H g).2 0 ∧
    (init_classes E H g).err = 0 ∧
    (init_classes E H g).num_unique ≠ 1 ∧
    init_unique E H g = 0 ∧
    (set_closest_numanode E H.topology (init_classes E H g).num_unique
      ((init_classes E H g).bandwidth_nodes.getD []) (init_high_bandwidth E H g)
      H.numa_num_configured_cpus).1 = 0 ∧
    (numakind_hbw_closest_numanode_init E H g).closest_numanode =
      some (set_closest_numanode E H.topology (init_classes E H g).num_unique
        ((init_classes E H g).bandwidth_nodes.getD []) (init_high_bandwidth E H g)
        H.numa_num_configured_cpus).2 := by
  have hu : E.NUMAKIND_ERROR_UNAVAILABLE ≠ 0 := by
    intro h; simp [ErrorCodes.Distinct, h] at hE
  have h1 : init_unique E H g = 0 := by
    by_contra hne
    unfold numakind_hbw_closest_numanode_init init_resolve at h0
    simp only [hne, if_false] at h0
  have h2 : (init_classes E H g).err = 0 ∧ (init_classes E H g).num_unique ≠ 1 := by
    unfold init_unique at h1
    dsimp only at h1
    by_cases hc : (init_classes E H g).err = 0
    · refine ⟨hc, ?_⟩
      intro hone
      simp only [hc, hone, if_true] at h1
      exact hu h1
    · simp only [hc, if_false] at h1
  have h3 : (init_bandwidth E H g).1 = 0 := by
    by_contra hne
    have := h2.1
    unfold init_classes at this
    simp only [hne, if_false] at this
  have h4 : init_classes E H g =
      create_bandwidth_nodes E H.scratch_malloc_ok H.output_malloc_ok
        (init_bandwidth E H g).2 0 := by
    unfold init_classes
    simp only [h3, if_true]
  refine ⟨h3, h4, h2.1, h2.2, h1, ?_, ?_⟩
  · unfold numakind_hbw_closest_numanode_init init_resolve at h0
    simpa only [h1, if_true] using h0
  · have hr : (init_resolve E H g).1 = 0 := by
      unfold numakind_hbw_closest_numanode_init at h0
      exact h0
    unfold numakind_hbw_closest_numanode_init
    simp only [hr, ne_eq, not_true_eq_false, if_false]
    unfold init_resolve
    simp only [h1, if_true]

/-- A bandwidth vector that was read without error has `NUMA_NUM_NODES` entries. -/
theorem init_bandwidth_length (E : ErrorCodes) (hE : E.Distinct) (H : Host)
    (g : numakind_hbw_closest_numanode_t) (h0 : (init_bandwidth E H g).1 = 0) :
    (init_bandwidth E H g).2.length = H.NUMA_NUM_NODES := by
  have hp : E.NUMAKIND_ERROR_PMTT ≠ 0 := by
    intro h; simp [ErrorCodes.Distinct, h] at hE
  have he : E.NUMAKIND_ERROR_ENVIRON ≠ 0 := by
    intro h; simp [ErrorCodes.Distinct, h] at hE
  unfold init_bandwidth at h0 ⊢
  dsimp only at h0 ⊢
  split_ifs at h0 ⊢ with ha
  · cases henv : H.hbw_nodes_env with
    | some str =>
      rw [henv] at h0
      dsimp only at h0 ⊢
      cases hparse : H.numa_parse_nodestring str with
      | none => rw [hparse] at h0; exact absurd h0 he
      | some bm => simp [env_bandwidth]
    | none =>
      rw [henv] at h0
      dsimp only at h0 ⊢
      unfold parse_node_bandwidth at h0 ⊢
      cases hfile : H.bandwidth_file with
      | none => rw [hfile] at h0; exact absurd h0 hp
      | some contents =>
        rw [hfile] at h0
        dsimp only at h0 ⊢
        split_ifs at h0 ⊢ with hlen
        · exact absurd h0 hp
        · push_neg at hlen; exact hlen
  · exact absurd h0 ha

/-- In a list that is strictly ascending, the entry at the last index is the greatest. -/
theorem le_last_of_pairwise_lt (l : List Int) (hl : l.Pairwise (· < ·)) (x : Int) (hx : x ∈ l) :
    x ≤ l.getD (l.length - 1) 0 := by
  obtain ⟨j, hj, rfl⟩ := List.mem_iff_getElem.mp hx
  have hlast : l.length - 1 < l.length := by omega
  rw [List.getD_eq_getElem _ _ hlast]
  rcases Nat.lt_or_ge j (l.length - 1) with hlt | hge
  · exact le_of_lt ((List.pairwise_iff_getElem.mp hl) j (l.length - 1) hj hlast hlt)
  · have : j = l.length - 1 := by omega
    subst this
    exact le_refl _

/-- The content of a successful initialisation: the map has one entry for each CPU, each
entry a node of one class `c`; the bandwidth of `c` is `high_bandwidth`, which is the greatest
nonzero entry of the bandwidth vector, and the nodes of `c` are indices of entries with that
value. -/
theorem init_success_map (E : ErrorCodes) (hE : E.Distinct) (H : Host)
    (hT : H.topology.InRange) (g : numakind_hbw_closest_numanode_t)
    (h0 : (numakind_hbw_closest_numanode_init E H g).init_err = 0) :
    ∃ (c : bandwidth_nodes_t) (closest : List Int),
      (numakind_hbw_closest_numanode_init E H g).closest_numanode = some closest ∧
      closest = (set_closest_numanode E H.topology (init_classes E H g).num_unique
        ((init_classes E H g).bandwidth_nodes.getD []) (init_high_bandwidth E H g)
        H.numa_num_configured_cpus).2 ∧
      closest.length = H.numa_num_configured_cpus.toNat ∧
      (∀ i : Nat, (i : Int) < H.numa_num_configured_cpus →
        ∃ node, closest[i]? = some node ∧ node ∈ c.numanodes) ∧
      (∀ n ∈ c.numanodes, ∃ i, ∃ hi : i < (init_bandwidth E H g).2.length,
        n = (i : Int) ∧ (init_bandwidth E H g).2[i] = init_high_bandwidth E H g) ∧
      init_high_bandwidth E H g ≠ 0 ∧
      init_high_bandwidth E H g ∈ (init_bandwidth E H g).2 ∧
      (∀ x ∈ (init_bandwidth E H g).2, x ≠ 0 → x ≤ init_high_bandwidth E H g) := by
  obtain ⟨-, h4, h5, -, -, h7, h8⟩ := init_success_steps E hE H g h0
  rw [h4] at h5
  obtain ⟨hso, hoo, hnz⟩ := create_bandwidth_nodes_err_zero E hE _ _ _ _ h5
  rw [hso, hoo] at h4
  obtain ⟨classes, hc, hne, hP, hlt, hbw, -⟩ :=
    create_bandwidth_nodes_spec E (init_bandwidth E H g).2 0 hnz
  rw [hc] at h4
  have hhb : init_high_bandwidth E H g =
      (classes.map (·.bandwidth)).getD ((classes.map (·.bandwidth)).length - 1) 0 := by
    unfold init_high_bandwidth
    rw [h4]
    simp only [Option.getD_some, List.length_map]
    have hidx : ((classes.length : Int) - 1).toNat = classes.length - 1 := by omega
    simp only [Nat.cast_id, hidx]
    obtain ⟨x, hx, hx0⟩ := hnz
    have hxm : x ∈ classes.map (·.bandwidth) := (hbw x).mpr (by simp [hx, hx0])
    have hpos : 0 < classes.length := by
      rcases classes with _ | ⟨a, l⟩
      · simp at hxm
      · simp
    have hlast : classes.length - 1 < classes.length := by omega
    rw [List.getD_eq_getElem _ _ hlast, List.getD_eq_getElem _ _ (by simpa using hlast)]
    simp
  have hmax : ∀ x ∈ (init_bandwidth E H g).2, x ≠ 0 → x ≤ init_high_bandwidth E H g := by
    intro x hx hx0
    rw [hhb]
    exact le_last_of_pairwise_lt _ hlt x ((hbw x).mpr (by simp [hx, hx0]))
  rw [h4] at h7 h8
  simp only [Option.getD_some, Nat.cast_id] at h7 h8
  obtain ⟨c, hfind, hcb, hlen, hall⟩ := set_closest_numanode_spec E hE H.topology hT classes
    (init_high_bandwidth E H g) H.numa_num_configured_cpus hne h7
  have hcm : c ∈ classes := List.mem_of_find?_eq_some hfind
  have hin : init_high_bandwidth E H g ∈ (init_bandwidth E H g).2.filter (· ≠ 0) := by
    rw [← hbw, ← hcb]
    exact List.mem_map_of_mem _ hcm
  have hin' := List.mem_filter.mp hin
  refine ⟨c, _, h8, ?_, hlen, ?_, ?_, by simpa using hin'.2, hin'.1, hmax⟩
  · rw [h4]
    simp only [Option.getD_some, Nat.cast_id]
  · intro i hi
    obtain ⟨node, hget, hmem, -, -⟩ := hall i hi
    exact ⟨node, hget, hmem⟩
  · intro n hn
    obtain ⟨i, hi, hni, -, hb⟩ := hP c hcm n hn
    exact ⟨i, hi, hni, by rw [← hb, hcb]⟩

/-! ## Lemmas: the nodemask -/

theorem numa_bitmask_clearall_full (bits : List Bool) :
    numa_bitmask_clearall { size := bits.length, maskp := bits } =
      { size := bits.length, maskp := List.replicate bits.length false } := by
  unfold numa_bitmask_clearall
  simp only [bitmask.mk.injEq, true_and]
  apply List.ext_getElem
  · simp
  · intro k h₁ h₂
    have hk : k < bits.length := by simpa using h₁
    simp [hk]

/-- After clearing, setting the bit of a node id `0 ≤ node < 2^32` leaves bit `k` set exactly
when `k` is the node id; no bit is set when the node id is not below the size. -/
theorem numa_bitmask_setbit_cleared (size : Nat) (node : Int) (h0 : 0 ≤ node)
    (h32 : node < 4294967296) :
    (numa_bitmask_setbit { size := size, maskp := List.replicate size false } node).maskp.length =
      size ∧
    ∀ k, ∀ hk : k <
        (numa_bitmask_setbit { size := size, maskp := List.replicate size false } node).maskp.length,
      ((numa_bitmask_setbit { size := size, maskp := List.replicate size false }
        node).maskp[k] = true ↔ (k : Int) = node) := by
  have hmod : (node % 4294967296).toNat = node.toNat := by
    rw [Int.emod_eq_of_lt h0 h32]
  unfold numa_bitmask_setbit
  dsimp only
  rw [hmod]
  split_ifs with hlt
  · refine ⟨by simp, ?_⟩
    intro k hk
    dsimp only at hk ⊢
    rw [List.getElem_set]
    split_ifs with heq
    · simp only [true_iff]; omega
    · simp only [List.getElem_replicate, Bool.false_eq_true, false_iff]; omega
  · refine ⟨by simp, ?_⟩
    intro k hk
    dsimp only at hk ⊢
    have hk' : k < size := by simpa using hk
    simp only [List.getElem_replicate, Bool.false_eq_true, false_iff]; omega

theorem pthread_once_of_reachable (E : ErrorCodes) (H : Host) (s : process_state)
    (hs : s = process_start ∨ s = pthread_once E H process_start) :
    pthread_once E H s = pthread_once E H process_start := by
  rcases hs with rfl | rfl
  · rfl
  · simp [pthread_once, process_start]

theorem pthread_once_start (E : ErrorCodes) (H : Host) :
    (pthread_once E H process_start).g =
      numakind_hbw_closest_numanode_init E H process_start.g := by
  simp [pthread_once, process_start]

/-! ## Claims about `numakind_hbw_get_mbind_nodemask` -/

/-- C5 as amended: after a successful initialisation, for a caller bitmask of `maxnode` bits
with any prior contents and a CPU id `0 ≤ cpu < num_cpu`, the call returns 0 and bit `k` of the
bitmask is set exactly when `k` is `closest_numanode[cpu]`: one bit is set when that node id is
below `maxnode`, and none otherwise. -/
theorem get_mbind_nodemask_success (E : ErrorCodes) (hE : E.Distinct) (H : Host)
    (hT : H.topology.InRange) (hN : (H.NUMA_NUM_NODES : Int) ≤ INT_MAX)
    (s : process_state) (hs : s = process_start ∨ s = pthread_once E H process_start)
    (h0 : (pthread_once E H process_start).g.init_err = 0)
    (bits : List Bool) (maxnode : Nat) (hlen : bits.length = maxnode)
    (cpu : Int) (hc0 : 0 ≤ cpu) (hc : cpu < (pthread_once E H process_start).g.num_cpu) :
    ∃ (closest : List Int) (node : Int) (out : List Bool),
      (pthread_once E H process_start).g.closest_numanode = some closest ∧
      closest[cpu.toNat]? = some node ∧
      numakind_hbw_get_mbind_nodemask E H s (some bits) maxnode cpu =
        (pthread_once E H process_start, some (0, some out)) ∧
      out.length = maxnode ∧
      ∀ k, ∀ hk : k < out.length, (out[k] = true ↔ (k : Int) = node) := by
  have hg := pthread_once_start E H
  rw [hg] at h0 hc
  obtain ⟨c, closest, hcl, -, hclen, hall, hnodes, -, -, -⟩ :=
    init_success_map E hE H hT process_start.g h0
  have hblen := init_bandwidth_length E hE H process_start.g
    (init_success_steps E hE H process_start.g h0).1
  have hncpu : (numakind_hbw_closest_numanode_init E H process_start.g).num_cpu =
      H.numa_num_configured_cpus := rfl
  rw [hncpu] at hc
  obtain ⟨node, hget, hmem⟩ := hall cpu.toNat (by omega)
  obtain ⟨i, hi, hni, -⟩ := hnodes node hmem
  rw [hblen] at hi
  have hn0 : 0 ≤ node := by omega
  have hn32 : node < 4294967296 := by unfold INT_MAX at hN; omega
  have hbit := numa_bitmask_setbit_cleared maxnode node hn0 hn32
  refine ⟨closest, node, _, by rw [hg, hcl], hget, ?_, hbit.1, hbit.2⟩
  have hcpu : cpu.toNat < closest.length := by rw [hclen]; omega
  have hgetD : closest.getD cpu.toNat 0 = node := by
    rw [List.getD_eq_getElem?_getD, hget]; rfl
  unfold numakind_hbw_get_mbind_nodemask
  rw [pthread_once_of_reachable E H s hs]
  dsimp only
  rw [hg, hcl]
  simp only [h0, hncpu, hc, hc0, hcpu, and_self, if_true, hgetD]
  subst hlen
  rw [numa_bitmask_clearall_full]

/-- Witness for C5 as amended: the sample host, a bitmask of four bits, CPU 1. -/
theorem get_mbind_nodemask_success_witness :
    ∃ (closest : List Int) (node : Int) (out : List Bool),
      (pthread_once sampleCodes sampleHost process_start).g.closest_numanode = some closest ∧
      closest[(1 : Int).toNat]? = some node ∧
      numakind_hbw_get_mbind_nodemask sampleCodes sampleHost process_start
          (some [true, false, true, true]) 4 1 =
        (pthread_once sampleCodes sampleHost process_start, some (0, some out)) ∧
      out.length = 4 ∧
      ∀ k, ∀ hk : k < out.length, (out[k] = true ↔ (k : Int) = node) :=
  get_mbind_nodemask_success sampleCodes (by decide) sampleHost sampleTopology_inRange
    (by decide) process_start (Or.inl rfl) (by decide) [true, false, true, true] 4 rfl 1
    (by decide) (by decide)

/-- C5 fails as stated for a bitmask with fewer bits than the node id: on the sample host the
initialisation succeeds with `closest_numanode = [2, 2]`, and a call from CPU 0 with a bitmask
of two bits returns 0 and leaves both bits clear. -/
theorem get_mbind_nodemask_success_counterexample :
    (pthread_once sampleCodes sampleHost process_start).g =
      { init_err := 0, num_cpu := 2, closest_numanode := some [2, 2] } ∧
    (numakind_hbw_get_mbind_nodemask sampleCodes sampleHost process_start
      (some [true, true]) 2 0).2 = some (0, some [false, false]) := by
  decide

/-- C6: when the initialisation has recorded a nonzero error, the call returns exactly that
error for every buffer, size and CPU, leaves the buffer as it was, and every later call returns
the same error again. -/
theorem get_mbind_nodemask_sticky (E : ErrorCodes) (H : Host) (s : process_state)
    (he : (pthread_once E H s).g.init_err ≠ 0)
    (nodemask : Option (List Bool)) (maxnode : Nat) (cpu : Int) :
    numakind_hbw_get_mbind_nodemask E H s nodemask maxnode cpu =
      (pthread_once E H s, some ((pthread_once E H s).g.init_err, nodemask)) ∧
    ∀ (nodemask' : Option (List Bool)) (maxnode' : Nat) (cpu' : Int),
      (numakind_hbw_get_mbind_nodemask E H
        (numakind_hbw_get_mbind_nodemask E H s nodemask maxnode cpu).1
        nodemask' maxnode' cpu').2 = some ((pthread_once E H s).g.init_err, nodemask') := by
  have hfirst : ∀ (t : process_state), (pthread_once E H t).g.init_err ≠ 0 →
      ∀ (nm : Option (List Bool)) (mx : Nat) (c : Int),
      numakind_hbw_get_mbind_nodemask E H t nm mx c =
        (pthread_once E H t, some ((pthread_once E H t).g.init_err, nm)) := by
    intro t ht nm mx c
    unfold numakind_hbw_get_mbind_nodemask
    cases nm with
    | none => rfl
    | some bits => simp only [ht, if_false]
  have hidem : pthread_once E H (pthread_once E H s) = pthread_once E H s := by
    unfold pthread_once
    by_cases hd : s.once_done = true
    · simp [hd]
    · simp [hd]
  refine ⟨hfirst s he nodemask maxnode cpu, ?_⟩
  intro nodemask' maxnode' cpu'
  rw [hfirst s he nodemask maxnode cpu]
  dsimp only
  rw [hfirst _ (by rw [hidem]; exact he), hidem]

/-- Witness for C6: on the sample host with a bandwidth file of three entries the
initialisation records `NUMAKIND_ERROR_PMTT`. -/
theorem get_mbind_nodemask_sticky_witness :
    (pthread_once sampleCodes { sampleHost with bandwidth_file := some [10, 20, 30] }
      process_start).g.init_err ≠ 0 ∧
    numakind_hbw_get_mbind_nodemask sampleCodes
        { sampleHost with bandwidth_file := some [10, 20, 30] } process_start
        (some [true, true, false, false]) 4 0 =
      (pthread_once sampleCodes { sampleHost with bandwidth_file := some [10, 20, 30] }
          process_start,
        some ((pthread_once sampleCodes { sampleHost with bandwidth_file := some [10, 20, 30] }
          process_start).g.init_err, some [true, true, false, false])) :=
  ⟨by decide,
    (get_mbind_nodemask_sticky sampleCodes { sampleHost with bandwidth_file := some [10, 20, 30] }
      process_start (by decide) (some [true, true, false, false]) 4 0).1⟩

/-! ## Claims about `numakind_hbw_closest_numanode_init` -/

/-- C7: whatever the host supplies (CPU count, allocation outcomes, override, bandwidth file,
topology) and whatever `g` holds before, after `numakind_hbw_closest_numanode_init` either
`init_err = 0` and the map has one entry for each CPU below `num_cpu`, each a node id in
`[0, NUMA_NUM_NODES)` and so never -1, or `init_err ≠ 0` and `closest_numanode` is `NULL`. -/
theorem init_no_partial_state (E : ErrorCodes) (hE : E.Distinct) (H : Host)
    (hT : H.topology.InRange) (g : numakind_hbw_closest_numanode_t) :
    ((numakind_hbw_closest_numanode_init E H g).init_err = 0 ∧
      ∃ closest : List Int,
        (numakind_hbw_closest_numanode_init E H g).closest_numanode = some closest ∧
        closest.length = (numakind_hbw_closest_numanode_init E H g).num_cpu.toNat ∧
        ∀ i : Nat, (i : Int) < (numakind_hbw_closest_numanode_init E H g).num_cpu →
          ∃ node, closest[i]? = some node ∧ node ≠ -1 ∧ 0 ≤ node ∧
            node < (H.NUMA_NUM_NODES : Int)) ∨
    ((numakind_hbw_closest_numanode_init E H g).init_err ≠ 0 ∧
      (numakind_hbw_closest_numanode_init E H g).closest_numanode = none) := by
  by_cases h0 : (numakind_hbw_closest_numanode_init E H g).init_err = 0
  · left
    obtain ⟨c, closest, hcl, -, hclen, hall, hnodes, -, -, -⟩ := init_success_map E hE H hT g h0
    have hblen := init_bandwidth_length E hE H g (init_success_steps E hE H g h0).1
    refine ⟨h0, closest, hcl, hclen, ?_⟩
    intro i hi
    obtain ⟨node, hget, hmem⟩ := hall i hi
    obtain ⟨j, hj, hnj, -⟩ := hnodes node hmem
    rw [hblen] at hj
    exact ⟨node, hget, by omega, by omega, by omega⟩
  · right
    exact ⟨h0, init_error_discards E H g h0⟩

/-- Witness for C7 on the sample host. -/
theorem init_no_partial_state_witness :
    ((numakind_hbw_closest_numanode_init sampleCodes sampleHost process_start.g).init_err = 0 ∧
      ∃ closest : List Int,
        (numakind_hbw_closest_numanode_init sampleCodes sampleHost
          process_start.g).closest_numanode = some closest ∧
        closest.length =
          (numakind_hbw_closest_numanode_init sampleCodes sampleHost
            process_start.g).num_cpu.toNat ∧
        ∀ i : Nat,
          (i : Int) <
              (numakind_hbw_closest_numanode_init sampleCodes sampleHost process_start.g).num_cpu →
          ∃ node, closest[i]? = some node ∧ node ≠ -1 ∧ 0 ≤ node ∧
            node < (sampleHost.NUMA_NUM_NODES : Int)) ∨
    ((numakind_hbw_closest_numanode_init sampleCodes sampleHost process_start.g).init_err ≠ 0 ∧
      (numakind_hbw_closest_numanode_init sampleCodes sampleHost
        process_start.g).closest_numanode = none) :=
  init_no_partial_state sampleCodes (by decide) sampleHost sampleTopology_inRange process_start.g

/-- A duplicate-free list whose entries all equal `v` and which holds `v` has length 1. -/
theorem length_eq_one_of_nodup_const (l : List Int) (v : Int) (hnd : l.Nodup) (hv : v ∈ l)
    (hall : ∀ x ∈ l, x = v) : l.length = 1 := by
  rcases l with _ | ⟨a, _ | ⟨b, l⟩⟩
  · simp at hv
  · rfl
  · exfalso
    have ha := hall a (by simp)
    have hb := hall b (by simp)
    rw [ha, hb] at hnd
    simp at hnd

/-- What initialisation leaves behind when the bandwidth vector was read and its nonzero
entries share one value. -/
theorem init_single_value (E : ErrorCodes) (H : Host) (g : numakind_hbw_closest_numanode_t)
    (hE : E.Distinct)
    (hs : H.scratch_malloc_ok = true) (ho : H.output_malloc_ok = true)
    (hb : (init_bandwidth E H g).1 = 0)
    (v : Int) (hv0 : v ≠ 0) (hv : v ∈ (init_bandwidth E H g).2)
    (hall : ∀ x ∈ (init_bandwidth E H g).2, x ≠ 0 → x = v) :
    init_resolve E H g = (E.NUMAKIND_ERROR_UNAVAILABLE, (init_alloc E H g).2) ∧
    numakind_hbw_closest_numanode_init E H g =
      { init_err := E.NUMAKIND_ERROR_UNAVAILABLE, num_cpu := H.numa_num_configured_cpus,
        closest_numanode := none } := by
  have hu : E.NUMAKIND_ERROR_UNAVAILABLE ≠ 0 := by
    intro h; simp [ErrorCodes.Distinct, h] at hE
  obtain ⟨classes, hc, -, -, hlt, hbw, -⟩ :=
    create_bandwidth_nodes_spec E (init_bandwidth E H g).2 0 ⟨v, hv, hv0⟩
  have hlen : classes.length = 1 := by
    have hnd : (classes.map (·.bandwidth)).Nodup := hlt.imp (fun h => ne_of_lt h)
    have := length_eq_one_of_nodup_const (classes.map (·.bandwidth)) v
      hnd ((hbw v).mpr (by simp [hv, hv0]))
      (fun x hx => by
        have hx' := List.mem_filter.mp ((hbw x).mp hx)
        exact hall x hx'.1 (by simpa using hx'.2))
    simpa using this
  have hcl : init_classes E H g =
      { err := 0, num_unique := 1, bandwidth_nodes := some classes } := by
    unfold init_classes
    simp only [hb, if_true, hs, ho, hc, hlen]
    rfl
  have hun : init_unique E H g = E.NUMAKIND_ERROR_UNAVAILABLE := by
    unfold init_unique
    simp only [hcl, if_true]
  have hres : init_resolve E H g = (E.NUMAKIND_ERROR_UNAVAILABLE, (init_alloc E H g).2) := by
    unfold init_resolve
    simp only [hun, hu, if_false]
  refine ⟨hres, ?_⟩
  unfold numakind_hbw_closest_numanode_init
  simp only [hres, ne_eq, hu, not_false_eq_true, if_true]

/-- C8: when the bandwidth vector was read (from the file or the override) and its nonzero
entries share one value, with the allocations of the classifier succeeding, initialisation
records `NUMAKIND_ERROR_UNAVAILABLE`, which is neither the descriptor error nor the tie error;
`set_closest_numanode` is not run (the step that would call it leaves the allocated map
untouched, and the outcome is the same for every topology); the map is discarded; and
`numakind_hbw_is_available` returns 0. -/
theorem init_single_value_unavailable (E : ErrorCodes) (hE : E.Distinct) (H : Host)
    (hs : H.scratch_malloc_ok = true) (ho : H.output_malloc_ok = true)
    (hb : (init_bandwidth E H process_start.g).1 = 0)
    (v : Int) (hv0 : v ≠ 0) (hv : v ∈ (init_bandwidth E H process_start.g).2)
    (hall : ∀ x ∈ (init_bandwidth E H process_start.g).2, x ≠ 0 → x = v) :
    (numakind_hbw_closest_numanode_init E H process_start.g).init_err =
      E.NUMAKIND_ERROR_UNAVAILABLE ∧
    E.NUMAKIND_ERROR_UNAVAILABLE ≠ E.NUMAKIND_ERROR_PMTT ∧
    E.NUMAKIND_ERROR_UNAVAILABLE ≠ E.NUMAKIND_ERROR_TIEDISTANCE ∧
    (numakind_hbw_closest_numanode_init E H process_start.g).closest_numanode = none ∧
    init_resolve E H process_start.g =
      (E.NUMAKIND_ERROR_UNAVAILABLE, (init_alloc E H process_start.g).2) ∧
    (∀ T : Topology,
      numakind_hbw_closest_numanode_init E { H with topology := T } process_start.g =
        numakind_hbw_closest_numanode_init E H process_start.g) ∧
    (∀ cpu : Int, (numakind_hbw_is_available E H process_start cpu).2 = some 0) := by
  have hu : E.NUMAKIND_ERROR_UNAVAILABLE ≠ 0 := by
    intro h; simp [ErrorCodes.Distinct, h] at hE
  have hup : E.NUMAKIND_ERROR_UNAVAILABLE ≠ E.NUMAKIND_ERROR_PMTT := by
    intro h; simp [ErrorCodes.Distinct, h] at hE
  have hut : E.NUMAKIND_ERROR_UNAVAILABLE ≠ E.NUMAKIND_ERROR_TIEDISTANCE := by
    intro h; simp [ErrorCodes.Distinct, h] at hE
  obtain ⟨hres, hinit⟩ := init_single_value E H process_start.g hE hs ho hb v hv0 hv hall
  refine ⟨by rw [hinit], hup, hut, by rw [hinit], hres, ?_, ?_⟩
  · intro T
    have := (init_single_value E { H with topology := T } process_start.g hE hs ho hb v hv0 hv
      hall).2
    rw [this, hinit]
  · intro cpu
    unfold numakind_hbw_is_available numakind_hbw_get_mbind_nodemask
    simp only [pthread_once_start, hinit, Option.map_some', hu, if_false]

/-- Witness for C8: four nodes, bandwidth file `[10, 10, 10, 10]`, no override. -/
theorem init_single_value_unavailable_witness :
    (numakind_hbw_closest_numanode_init sampleCodes
      { sampleHost with bandwidth_file := some [10, 10, 10, 10] } process_start.g).init_err =
      sampleCodes.NUMAKIND_ERROR_UNAVAILABLE ∧
    (∀ cpu : Int, (numakind_hbw_is_available sampleCodes
      { sampleHost with bandwidth_file := some [10, 10, 10, 10] } process_start cpu).2 = some 0) :=
  have h := init_single_value_unavailable sampleCodes (by decide)
    { sampleHost with bandwidth_file := some [10, 10, 10, 10] } rfl rfl (by decide) 10
    (by decide) (by decide) (by decide)
  ⟨h.1, h.2.2.2.2.2.2⟩

/-- C10: whenever initialisation succeeds, the target `high_bandwidth` handed to
`set_closest_numanode` is the greatest nonzero entry of the bandwidth vector (it is nonzero, it
occurs in the vector, and no nonzero entry exceeds it), the map is the one that call wrote for
this target, and every entry of the map is the index of a node whose bandwidth is that
maximum; classes of lower bandwidth, however many, are never selected. -/
theorem init_targets_maximum (E : ErrorCodes) (hE : E.Distinct) (H : Host)
    (hT : H.topology.InRange) (g : numakind_hbw_closest_numanode_t)
    (h0 : (numakind_hbw_closest_numanode_init E H g).init_err = 0) :
    init_high_bandwidth E H g ≠ 0 ∧
    init_high_bandwidth E H g ∈ (init_bandwidth E H g).2 ∧
    (∀ x ∈ (init_bandwidth E H g).2, x ≠ 0 → x ≤ init_high_bandwidth E H g) ∧
    ∃ closest : List Int,
      (numakind_hbw_closest_numanode_init E H g).closest_numanode = some closest ∧
      closest = (set_closest_numanode E H.topology (init_classes E H g).num_unique
        ((init_classes E H g).bandwidth_nodes.getD []) (init_high_bandwidth E H g)
        H.numa_num_configured_cpus).2 ∧
      ∀ node ∈ closest, ∃ i, ∃ hi : i < (init_bandwidth E H g).2.length,
        node = (i : Int) ∧ (init_bandwidth E H g).2[i] = init_high_bandwidth E H g := by
  obtain ⟨c, closest, hcl, hset, hclen, hall, hnodes, hnz, hin, hmax⟩ :=
    init_success_map E hE H hT g h0
  refine ⟨hnz, hin, hmax, closest, hcl, hset, ?_⟩
  intro node hnode
  obtain ⟨i, hi, hget⟩ := List.mem_iff_getElem.mp hnode
  obtain ⟨node', hget', hmem⟩ := hall i (by omega)
  have : node' = node := by
    rw [List.getElem?_eq_getElem hi, hget] at hget'
    exact (Option.some.inj hget').symm
  subst this
  exact hnodes node' hmem

/-- Witness for C10: a bandwidth file with the three distinct values 10, 20 and 30. -/
theorem init_targets_maximum_witness :
    (numakind_hbw_closest_numanode_init sampleCodes
      { sampleHost with bandwidth_file := some [10, 20, 30, 20] } process_start.g).init_err = 0 ∧
    init_high_bandwidth sampleCodes { sampleHost with bandwidth_file := some [10, 20, 30, 20] }
      process_start.g = 30 ∧
    (numakind_hbw_closest_numanode_init sampleCodes
      { sampleHost with bandwidth_file := some [10, 20, 30, 20] }
      process_start.g).closest_numanode = some [2, 2] ∧
    init_high_bandwidth sampleCodes { sampleHost with bandwidth_file := some [10, 20, 30, 20] }
        process_start.g ∈
      (init_bandwidth sampleCodes { sampleHost with bandwidth_file := some [10, 20, 30, 20] }
        process_start.g).2 :=
  ⟨by decide, by decide, by decide,
    (init_targets_maximum sampleCodes (by decide)
      { sampleHost with bandwidth_file := some [10, 20, 30, 20] } sampleTopology_inRange
      process_start.g (by decide)).2.1⟩

/-! ## Claims about the capability surface -/

/-- C12 as amended: after a successful initialisation, a call with a non-null buffer from a
CPU id that is not below the recorded CPU count returns `NUMAKIND_ERROR_GETCPU`, having cleared
the `maxnode` bits of the buffer. -/
theorem get_mbind_nodemask_getcpu (E : ErrorCodes) (H : Host) (s : process_state)
    (hs : s = process_start ∨ s = pthread_once E H process_start)
    (h0 : (pthread_once E H process_start).g.init_err = 0)
    (bits : List Bool) (maxnode : Nat) (cpu : Int)
    (hc : (pthread_once E H process_start).g.num_cpu ≤ cpu) :
    numakind_hbw_get_mbind_nodemask E H s (some bits) maxnode cpu =
      (pthread_once E H process_start,
        some (E.NUMAKIND_ERROR_GETCPU,
          some (numa_bitmask_clearall { size := maxnode, maskp := bits }).maskp)) := by
  unfold numakind_hbw_get_mbind_nodemask
  rw [pthread_once_of_reachable E H s hs]
  have hc' : ¬ cpu < (pthread_once E H process_start).g.num_cpu := by omega
  simp only [h0, hc', if_true, if_false]

/-- Witness for C12 as amended: the sample host has two CPUs; the call comes from CPU 2. -/
theorem get_mbind_nodemask_getcpu_witness :
    (numakind_hbw_get_mbind_nodemask sampleCodes sampleHost process_start
      (some [true, true, true, true]) 4 2).2 =
      some (sampleCodes.NUMAKIND_ERROR_GETCPU, some [false, false, false, false]) :=
  (congrArg Prod.snd
    (get_mbind_nodemask_getcpu sampleCodes sampleHost process_start (Or.inl rfl) (by decide)
      [true, true, true, true] 4 2 (by decide))).trans (by decide)

/-- C12 fails as stated for a `NULL` buffer: on the sample host, with two CPUs recorded, a call
from CPU 5 with a `NULL` buffer returns 0, not `NUMAKIND_ERROR_GETCPU`. -/
theorem get_mbind_nodemask_getcpu_counterexample :
    (pthread_once sampleCodes sampleHost process_start).g.init_err = 0 ∧
    (pthread_once sampleCodes sampleHost process_start).g.num_cpu = 2 ∧
    (numakind_hbw_get_mbind_nodemask sampleCodes sampleHost process_start none 0 5).2 =
      some (0, none) ∧
    sampleCodes.NUMAKIND_ERROR_GETCPU ≠ 0 := by
  decide

/-- C13: `numakind_hbw_is_available` returns 1 when the cached initialisation error is 0 and
0 when it is not, so 1 exactly when it is 0; the result is the same for every CPU the caller
may run on, below the recorded CPU count or not. -/
theorem is_available_iff (E : ErrorCodes) (H : Host) (s : process_state) (cpu : Int) :
    (numakind_hbw_is_available E H s cpu).2 =
      some (if (pthread_once E H s).g.init_err = 0 then 1 else 0) ∧
    ((numakind_hbw_is_available E H s cpu).2 = some 1 ↔ (pthread_once E H s).g.init_err = 0) ∧
    ((pthread_once E H s).g.init_err ≠ 0 → (numakind_hbw_is_available E H s cpu).2 = some 0) ∧
    (∀ cpu' : Int, numakind_hbw_is_available E H s cpu' = numakind_hbw_is_available E H s cpu) := by
  have hval : ∀ c : Int, numakind_hbw_is_available E H s c =
      (pthread_once E H s, some (if (pthread_once E H s).g.init_err = 0 then 1 else 0)) := by
    intro c
    unfold numakind_hbw_is_available numakind_hbw_get_mbind_nodemask
    rfl
  refine ⟨by rw [hval], ?_, ?_, fun cpu' => by rw [hval, hval]⟩
  · rw [hval]
    by_cases h : (pthread_once E H s).g.init_err = 0
    · simp [h]
    · simp [h]
  · intro h
    rw [hval]
    simp [h]

/-- C15 as amended: after a successful initialisation a call with a `NULL` buffer returns 0
for every `maxnode`, zero or not, and every CPU; no argument is checked and nothing is written. -/
theorem get_mbind_nodemask_null (E : ErrorCodes) (H : Host) (s : process_state)
    (hs : s = process_start ∨ s = pthread_once E H process_start)
    (h0 : (pthread_once E H process_start).g.init_err = 0) (maxnode : Nat) (cpu : Int) :
    numakind_hbw_get_mbind_nodemask E H s none maxnode cpu =
      (pthread_once E H process_start, some (0, none)) := by
  unfold numakind_hbw_get_mbind_nodemask
  rw [pthread_once_of_reachable E H s hs]
  simp only [h0]

/-- Witness for C15 as amended on the sample host, with `maxnode = 4`. -/
theorem get_mbind_nodemask_null_witness :
    (pthread_once sampleCodes sampleHost process_start).g.init_err = 0 ∧
    numakind_hbw_get_mbind_nodemask sampleCodes sampleHost process_start none 4 0 =
      (pthread_once sampleCodes sampleHost process_start, some (0, none)) :=
  ⟨by decide,
    get_mbind_nodemask_null sampleCodes sampleHost process_start (Or.inl rfl) (by decide) 4 0⟩

/-- C15 fails as stated: on the sample host the initialisation succeeds, and a call with a
`NULL` buffer and `maxnode = 4` returns 0. -/
theorem get_mbind_nodemask_null_counterexample :
    (pthread_once sampleCodes sampleHost process_start).g.init_err = 0 ∧
    (numakind_hbw_get_mbind_nodemask sampleCodes sampleHost process_start none 4 0).2 =
      some (0, none) := by
  decide

/-- C16: for every kind, every state of the globals and every prior content of the output,
`numakind_hbw_hugetlb_get_mmap_flags` returns 0 and stores
`MAP_PRIVATE | MAP_ANONYMOUS | MAP_HUGETLB` (the three bits and no other), and
`numakind_hbw_preferred_get_mbind_mode` returns 0 and stores `MPOL_PREFERRED`, which is not
`MPOL_BIND`; neither touches the globals. -/
theorem policy_queries_constant {κ : Type} (kind : κ) (s : process_state) (out : Int) :
    numakind_hbw_hugetlb_get_mmap_flags kind s out =
      (s, 0, ((MAP_PRIVATE ||| MAP_ANONYMOUS ||| MAP_HUGETLB : Nat) : Int)) ∧
    (numakind_hbw_hugetlb_get_mmap_flags kind s out).2.2 = 0x40022 ∧
    (∀ k : Nat, (MAP_PRIVATE ||| MAP_ANONYMOUS ||| MAP_HUGETLB).testBit k = true ↔
      k = 1 ∨ k = 5 ∨ k = 18) ∧
    numakind_hbw_preferred_get_mbind_mode kind s out = (s, 0, MPOL_PREFERRED) ∧
    (numakind_hbw_preferred_get_mbind_mode kind s out).2.2 ≠ MPOL_BIND := by
  refine ⟨rfl, ?_, ?_, rfl, ?_⟩
  · show ((MAP_PRIVATE ||| MAP_ANONYMOUS ||| MAP_HUGETLB : Nat) : Int) = 0x40022
    decide
  · intro k
    have hv : MAP_PRIVATE ||| MAP_ANONYMOUS ||| MAP_HUGETLB = 262178 := by decide
    rw [hv]
    rcases Nat.lt_or_ge k 19 with hk | hk
    · interval_cases k <;> simp [Nat.testBit, Nat.shiftRight_eq_div_pow]
    · have hlt : 262178 < 2 ^ k :=
        lt_of_lt_of_le (by norm_num) (Nat.pow_le_pow_right (by norm_num) hk)
      rw [Nat.testBit_lt_two_pow hlt]
      simp
      omega
  · show MPOL_PREFERRED ≠ MPOL_BIND
    decide

/-- Witness for C13: the probe answers 1 on the sample host from CPUs 0 and 7, and 0 on a
host whose bandwidth file is short. -/
theorem is_available_iff_witness :
    (numakind_hbw_is_available sampleCodes sampleHost process_start 0).2 = some 1 ∧
    (numakind_hbw_is_available sampleCodes sampleHost process_start 7).2 = some 1 ∧
    (numakind_hbw_is_available sampleCodes { sampleHost with bandwidth_file := some [10] }
      process_start 0).2 = some 0 :=
  ⟨((is_available_iff sampleCodes sampleHost process_start 0).2.1).mpr (by decide),
    ((is_available_iff sampleCodes sampleHost process_start 7).2.1).mpr (by decide),
    (is_available_iff sampleCodes { sampleHost with bandwidth_file := some [10] }
      process_start 0).2.2.1 (by decide)⟩

/-! ## Claims about `numanode_bandwidth_compare` -/

/-- The value of the comparison function, case by case. -/
theorem numanode_bandwidth_compare_eq (a b : numanode_bandwidth_t) :
    numanode_bandwidth_compare a b =
      if a.bandwidth < b.bandwidth then -1
      else if b.bandwidth < a.bandwidth then 1
      else if a.numanode < b.numanode then -1
      else if b.numanode < a.numanode then 1
      else 0 := by
  unfold numanode_bandwidth_compare
  dsimp only
  rcases lt_trichotomy a.bandwidth b.bandwidth with h | h | h
  · have h' : ¬ a.bandwidth > b.bandwidth := by omega
    simp [h, h']
  · rcases lt_trichotomy a.numanode b.numanode with k | k | k
    · have k' : ¬ a.numanode > b.numanode := by omega
      simp [h, k, k']
    · simp [h, k]
    · have k' : ¬ a.numanode < b.numanode := by omega
      simp [h, k, k']
  · have h' : ¬ a.bandwidth < b.bandwidth := by omega
    simp [h, h']

/-- The comparison function takes one of three values, each tied to the order of the pairs. -/
theorem numanode_bandwidth_compare_cases (a b : numanode_bandwidth_t) :
    (numanode_bandwidth_compare a b = -1 ∧
      (a.bandwidth < b.bandwidth ∨ (a.bandwidth = b.bandwidth ∧ a.numanode < b.numanode))) ∨
    (numanode_bandwidth_compare a b = 0 ∧ a.bandwidth = b.bandwidth ∧ a.numanode = b.numanode) ∨
    (numanode_bandwidth_compare a b = 1 ∧
      (b.bandwidth < a.bandwidth ∨ (a.bandwidth = b.bandwidth ∧ b.numanode < a.numanode))) := by
  rw [numanode_bandwidth_compare_eq]
  split_ifs <;> simp <;> omega

/-- C20: for all pairs, `numanode_bandwidth_compare` is the three-way lexicographic comparison
on (bandwidth, then node): its value is -1, 0 or 1 (the only subtraction is of two truth
values, so nothing can overflow whatever the fields hold), it is -1 exactly when the first pair
is smaller, 1 exactly when it is greater and 0 exactly when both fields agree; swapping the
arguments negates the value; and the order is transitive. -/
theorem numanode_bandwidth_compare_order (a b c : numanode_bandwidth_t) :
    (numanode_bandwidth_compare a b = -1 ∨ numanode_bandwidth_compare a b = 0 ∨
      numanode_bandwidth_compare a b = 1) ∧
    (numanode_bandwidth_compare a b = -1 ↔
      a.bandwidth < b.bandwidth ∨ (a.bandwidth = b.bandwidth ∧ a.numanode < b.numanode)) ∧
    (numanode_bandwidth_compare a b = 1 ↔
      b.bandwidth < a.bandwidth ∨ (a.bandwidth = b.bandwidth ∧ b.numanode < a.numanode)) ∧
    (numanode_bandwidth_compare a b = 0 ↔
      a.bandwidth = b.bandwidth ∧ a.numanode = b.numanode) ∧
    (numanode_bandwidth_compare a b = 0 ↔ a = b) ∧
    numanode_bandwidth_compare a b = -numanode_bandwidth_compare b a ∧
    (numanode_bandwidth_compare a b ≤ 0 → numanode_bandwidth_compare b c ≤ 0 →
      numanode_bandwidth_compare a c ≤ 0) ∧
    (numanode_bandwidth_compare a b < 0 → numanode_bandwidth_compare b c < 0 →
      numanode_bandwidth_compare a c < 0) := by
  have hstruct : a = b ↔ a.bandwidth = b.bandwidth ∧ a.numanode = b.numanode := by
    cases a; cases b
    simp only [numanode_bandwidth_t.mk.injEq]
    tauto
  rw [hstruct]
  refine ⟨?_, ?_, ?_, ?_, ?_, ?_, ?_, ?_⟩
  · rcases numanode_bandwidth_compare_cases a b with h | h | h <;> omega
  · rcases numanode_bandwidth_compare_cases a b with h | h | h <;> omega
  · rcases numanode_bandwidth_compare_cases a b with h | h | h <;> omega
  · rcases numanode_bandwidth_compare_cases a b with h | h | h <;> omega
  · rcases numanode_bandwidth_compare_cases a b with h | h | h <;> omega
  · rcases numanode_bandwidth_compare_cases a b with h | h | h <;>
      rcases numanode_bandwidth_compare_cases b a with k | k | k <;> omega
  · rcases numanode_bandwidth_compare_cases a b with h | h | h <;>
      rcases numanode_bandwidth_compare_cases b c with k | k | k <;>
      rcases numanode_bandwidth_compare_cases a c with l | l | l <;> omega
  · rcases numanode_bandwidth_compare_cases a b with h | h | h <;>
      rcases numanode_bandwidth_compare_cases b c with k | k | k <;>
      rcases numanode_bandwidth_compare_cases a c with l | l | l <;> omega

/-! ## Further claims about `set_closest_numanode` -/

/-- C14 as amended: for a target other than -1, `set_closest_numanode` returns
`NUMAKIND_ERROR_PMTT` exactly when no class of the list has the target bandwidth; for the
target -1, the value the code reserves for "no class found", it returns that error whether or
not the list has such a class. -/
theorem set_closest_numanode_pmtt_iff (E : ErrorCodes) (hE : E.Distinct) (T : Topology)
    (bandwidth_nodes : List bandwidth_nodes_t) (target num_cpunode : Int) :
    (target ≠ -1 →
      ((set_closest_numanode E T bandwidth_nodes.length bandwidth_nodes target num_cpunode).1 =
          E.NUMAKIND_ERROR_PMTT ↔
        ∀ c ∈ bandwidth_nodes, c.bandwidth ≠ target)) ∧
    (target = -1 →
      (set_closest_numanode E T bandwidth_nodes.length bandwidth_nodes target num_cpunode).1 =
        E.NUMAKIND_ERROR_PMTT) := by
  have hp0 : E.NUMAKIND_ERROR_PMTT ≠ 0 := by
    intro h; simp [ErrorCodes.Distinct, h] at hE
  have hpt : E.NUMAKIND_ERROR_TIEDISTANCE ≠ E.NUMAKIND_ERROR_PMTT := by
    intro h; simp [ErrorCodes.Distinct, h] at hE
  constructor
  · intro ht
    cases hfind : bandwidth_nodes.find? (fun c => c.bandwidth == target) with
    | none =>
      have hnone : ∀ c ∈ bandwidth_nodes, c.bandwidth ≠ target := by
        intro c hc
        have := List.find?_eq_none.mp hfind c hc
        simpa using this
      refine ⟨fun _ => hnone, fun _ => ?_⟩
      unfold set_closest_numanode
      simp [hfind]
    | some c =>
      have hb : c.bandwidth = target := by
        have := List.find?_some hfind
        simpa using this
      rw [set_closest_numanode_found E T bandwidth_nodes target num_cpunode c hfind ht]
      constructor
      · intro h
        rcases scan_cpus_err E T c.numanodes (List.replicate num_cpunode.toNat (-1)) 0 0
          with h' | h'
        · rw [h'] at h; exact absurd h.symm hp0
        · rw [h'] at h; exact absurd h hpt
      · intro h
        exact absurd hb (h c (List.mem_of_find?_eq_some hfind))
  · intro ht
    subst ht
    unfold set_closest_numanode
    simp only [Int.toNat_ofNat, List.take_length]
    cases hfind : bandwidth_nodes.find? (fun c => c.bandwidth == -1) with
    | none => simp
    | some c =>
      have hb : c.bandwidth = -1 := by
        have := List.find?_some hfind
        simpa using this
      simp [hb]

/-- Witness for C14 as amended: the sample class list with the targets 2 and 3. -/
theorem set_closest_numanode_pmtt_iff_witness :
    sampleCodes.Distinct ∧
    (set_closest_numanode sampleCodes sampleTopology sampleClasses.length sampleClasses 2 2).1 ≠
      sampleCodes.NUMAKIND_ERROR_PMTT ∧
    (set_closest_numanode sampleCodes sampleTopology sampleClasses.length sampleClasses 3 2).1 =
      sampleCodes.NUMAKIND_ERROR_PMTT :=
  ⟨by decide,
    fun h => absurd
      (((set_closest_numanode_pmtt_iff sampleCodes (by decide) sampleTopology sampleClasses 2
        2).1 (by decide)).mp h) (by decide),
    ((set_closest_numanode_pmtt_iff sampleCodes (by decide) sampleTopology sampleClasses 3
      2).1 (by decide)).mpr (by decide)⟩

/-- C14 fails as stated for the target -1: the list holds the class `{-1: [0]}`, whose
bandwidth is the target, and the call returns `NUMAKIND_ERROR_PMTT`. -/
theorem set_closest_numanode_pmtt_iff_counterexample :
    (∃ c ∈ ([{ bandwidth := -1, numanodes := [0] }] : List bandwidth_nodes_t),
      c.bandwidth = -1) ∧
    (set_closest_numanode sampleCodes sampleTopology 1
      [{ bandwidth := -1, numanodes := [0] }] (-1) 1).1 = sampleCodes.NUMAKIND_ERROR_PMTT := by
  decide

/-! ## Lemmas: the classes as runs of the sorted array -/

theorem runs_pairs (xs : List numanode_bandwidth_t) (cur : List Int) (last : Int) :
    (runs xs cur last).flatMap
        (fun c => c.numanodes.map (fun n => ({ numanode := n, bandwidth := c.bandwidth } :
          numanode_bandwidth_t))) =
      cur.map (fun n => ({ numanode := n, bandwidth := last } : numanode_bandwidth_t)) ++ xs := by
  induction xs generalizing cur last with
  | nil => simp [runs]
  | cons x xs ih =>
    unfold runs
    split_ifs with hb
    · simp only [List.flatMap_cons, ih, List.map_cons, List.map_nil, List.singleton_append]
    · have hb' : x.bandwidth = last := by simpa using hb
      rw [ih, ← hb']
      simp

/-- The classes of a vector with a nonzero entry, each node paired with the bandwidth of its
class and all laid end to end, are the sorted array. -/
theorem create_bandwidth_nodes_pairs (E : ErrorCodes) (bandwidth : List Int) (nu : Int)
    (h : ∃ x ∈ bandwidth, x ≠ 0) :
    ∃ classes : List bandwidth_nodes_t,
      create_bandwidth_nodes E true true bandwidth nu =
        { err := 0, num_unique := (classes.length : Nat), bandwidth_nodes := some classes } ∧
      classes.flatMap
          (fun c => c.numanodes.map (fun n => ({ numanode := n, bandwidth := c.bandwidth } :
            numanode_bandwidth_t))) =
        qsort (set_sorting_array bandwidth 0) := by
  obtain ⟨first, rest, hq, hc⟩ := create_bandwidth_nodes_ok E bandwidth nu h
  refine ⟨runs rest [first.numanode] first.bandwidth, hc, ?_⟩
  rw [runs_pairs, hq]
  rfl

/-- The sorted array is strictly ascending in (bandwidth, then node). -/
theorem qsort_strict (bandwidth : List Int) :
    (qsort (set_sorting_array bandwidth 0)).Pairwise
      (fun a b => a.bandwidth < b.bandwidth ∨
        (a.bandwidth = b.bandwidth ∧ a.numanode < b.numanode)) := by
  have hs := qsort_sorted (set_sorting_array bandwidth 0)
  have hnd := (sorted_array_facts bandwidth).1
  have hnd' : (qsort (set_sorting_array bandwidth 0)).Pairwise
      (fun a b => a.numanode ≠ b.numanode) := by
    have := List.pairwise_map.mp hnd
    exact this
  refine (hs.and hnd').imp ?_
  intro a b hab
  obtain ⟨hle, hne⟩ := hab
  rw [compare_le_iff] at hle
  omega

/-- Within each class of a vector with a nonzero entry the node ids are strictly ascending. -/
theorem create_bandwidth_nodes_class_sorted (E : ErrorCodes) (bandwidth : List Int) (nu : Int)
    (classes : List bandwidth_nodes_t)
    (hc : (create_bandwidth_nodes E true true bandwidth nu).bandwidth_nodes = some classes)
    (h : ∃ x ∈ bandwidth, x ≠ 0) :
    ∀ c ∈ classes, c.numanodes.Pairwise (· < ·) := by
  obtain ⟨classes', hc', hflat⟩ := create_bandwidth_nodes_pairs E bandwidth nu h
  rw [hc'] at hc
  have heq : classes' = classes := by simpa using hc
  subst heq
  intro c hmem
  have hsub : (c.numanodes.map (fun n => ({ numanode := n, bandwidth := c.bandwidth } :
      numanode_bandwidth_t))).Sublist (qsort (set_sorting_array bandwidth 0)) := by
    rw [← hflat]
    exact List.sublist_flatten_of_mem
      (List.mem_map_of_mem
        (fun c : bandwidth_nodes_t =>
          c.numanodes.map (fun n => ({ numanode := n, bandwidth := c.bandwidth } :
            numanode_bandwidth_t))) hmem)
  have hp := (qsort_strict bandwidth).sublist hsub
  have hp' := List.pairwise_map.mp hp
  refine hp'.imp ?_
  intro n m hnm
  simp only at hnm
  omega

/-- The sorting array is the bandwidth vector paired with its indices, without the entries of
bandwidth zero. -/
theorem set_sorting_array_eq_enum (bs : List Int) (i : Nat) :
    set_sorting_array bs i =
      ((bs.enumFrom i).filter (fun p => p.2 ≠ 0)).map
        (fun p => ({ numanode := (p.1 : Int), bandwidth := p.2 } : numanode_bandwidth_t)) := by
  induction bs generalizing i with
  | nil => simp [set_sorting_array]
  | cons b bs ih =>
    unfold set_sorting_array
    by_cases hb : b = 0
    · simp [hb, ih]
    · simp [hb, ih]

/-! ## Further claims about `create_bandwidth_nodes` -/

/-- C19: for a bandwidth vector with a nonzero entry, the node ids of each returned class are
strictly ascending, and the classes laid end to end, each node paired with the bandwidth of its
class, are exactly the sequence of the (node, bandwidth) pairs of nonzero bandwidth in ascending
order of bandwidth, then node; so the node lists laid end to end are the node column of that
sequence and each class is one contiguous run of it. -/
theorem create_bandwidth_nodes_runs_sorted (E : ErrorCodes) (bandwidth : List Int) (nu : Int)
    (h : ∃ x ∈ bandwidth, x ≠ 0) :
    ∃ (classes : List bandwidth_nodes_t) (sorted : List numanode_bandwidth_t),
      (create_bandwidth_nodes E true true bandwidth nu).err = 0 ∧
      (create_bandwidth_nodes E true true bandwidth nu).bandwidth_nodes = some classes ∧
      sorted.Perm ((bandwidth.enum.filter (fun p => p.2 ≠ 0)).map
        (fun p => ({ numanode := (p.1 : Int), bandwidth := p.2 } : numanode_bandwidth_t))) ∧
      sorted.Pairwise (fun a b => a.bandwidth < b.bandwidth ∨
        (a.bandwidth = b.bandwidth ∧ a.numanode < b.numanode)) ∧
      (∀ c ∈ classes, c.numanodes.Pairwise (· < ·)) ∧
      classes.flatMap
          (fun c => c.numanodes.map (fun n => ({ numanode := n, bandwidth := c.bandwidth } :
            numanode_bandwidth_t))) = sorted ∧
      classes.flatMap (·.numanodes) = sorted.map (·.numanode) := by
  obtain ⟨classes, hc, hflat⟩ := create_bandwidth_nodes_pairs E bandwidth nu h
  obtain ⟨classes', hc', -, -, -, -, hnodes⟩ := create_bandwidth_nodes_spec E bandwidth nu h
  have heq : classes' = classes := by
    rw [hc] at hc'
    have := hc'.symm
    simp only [create_result.mk.injEq, Option.some.injEq, true_and] at this
    exact this.2
  subst heq
  refine ⟨classes', qsort (set_sorting_array bandwidth 0), by rw [hc], by rw [hc], ?_,
    qsort_strict bandwidth, ?_, hflat, hnodes⟩
  · have := qsort_perm (set_sorting_array bandwidth 0)
    rw [set_sorting_array_eq_enum bandwidth 0] at this
    rw [set_sorting_array_eq_enum bandwidth 0]
    exact this
  · exact create_bandwidth_nodes_class_sorted E bandwidth nu classes' (by rw [hc]) h

/-- Witness for C19 on the vector `[30, 0, 10, 30, 10]`, whose classes are `{10: [2, 4]}` and
`{30: [0, 3]}`. -/
theorem create_bandwidth_nodes_runs_sorted_witness :
    (create_bandwidth_nodes sampleCodes true true [30, 0, 10, 30, 10] 0).bandwidth_nodes =
      some [{ bandwidth := 10, numanodes := [2, 4] }, { bandwidth := 30, numanodes := [0, 3] }] ∧
    ∃ (classes : List bandwidth_nodes_t) (sorted : List numanode_bandwidth_t),
      (create_bandwidth_nodes sampleCodes true true [30, 0, 10, 30, 10] 0).err = 0 ∧
      (create_bandwidth_nodes sampleCodes true true [30, 0, 10, 30, 10] 0).bandwidth_nodes =
        some classes ∧
      sorted.Perm ((([30, 0, 10, 30, 10] : List Int).enum.filter (fun p => p.2 ≠ 0)).map
        (fun p => ({ numanode := (p.1 : Int), bandwidth := p.2 } : numanode_bandwidth_t))) ∧
      sorted.Pairwise (fun a b => a.bandwidth < b.bandwidth ∨
        (a.bandwidth = b.bandwidth ∧ a.numanode < b.numanode)) ∧
      (∀ c ∈ classes, c.numanodes.Pairwise (· < ·)) ∧
      classes.flatMap
          (fun c => c.numanodes.map (fun n => ({ numanode := n, bandwidth := c.bandwidth } :
            numanode_bandwidth_t))) = sorted ∧
      classes.flatMap (·.numanodes) = sorted.map (·.numanode) :=
  ⟨by decide,
    create_bandwidth_nodes_runs_sorted sampleCodes [30, 0, 10, 30, 10] 0
      ⟨30, by decide, by decide⟩⟩

/-! ## Lemmas: the node list of a class -/

theorem nodes_with_bandwidth_sorted (bandwidth : List Int) (v : Int) :
    (nodes_with_bandwidth bandwidth v).Pairwise (· < ·) := by
  unfold nodes_with_bandwidth
  refine List.Pairwise.map _ ?_ ((List.pairwise_lt_range _).filter _)
  intro a b hab
  exact Int.ofNat_lt.mpr hab

theorem mem_nodes_with_bandwidth (bandwidth : List Int) (v n : Int) :
    n ∈ nodes_with_bandwidth bandwidth v ↔
      ∃ i, ∃ hi : i < bandwidth.length, n = (i : Int) ∧ bandwidth[i] = v := by
  unfold nodes_with_bandwidth
  simp only [List.mem_map, List.mem_filter, List.mem_range, decide_eq_true_eq]
  constructor
  · rintro ⟨i, ⟨hi, hv⟩, rfl⟩
    exact ⟨i, hi, rfl, by rw [← hv, List.getD_eq_getElem _ _ hi]⟩
  · rintro ⟨i, hi, rfl, hv⟩
    exact ⟨i, ⟨hi, by rw [← hv, List.getD_eq_getElem _ _ hi]⟩, rfl⟩

/-- Each class of a vector with a nonzero entry lists, in ascending order, exactly the indices
of the entries that hold its bandwidth. -/
theorem create_bandwidth_nodes_class_nodes (E : ErrorCodes) (bandwidth : List Int) (nu : Int)
    (classes : List bandwidth_nodes_t)
    (hc : (create_bandwidth_nodes E true true bandwidth nu).bandwidth_nodes = some classes)
    (h : ∃ x ∈ bandwidth, x ≠ 0) :
    ∀ c ∈ classes, c.numanodes = nodes_with_bandwidth bandwidth c.bandwidth := by
  obtain ⟨classes', hc', -, hP, hlt, hbw, hflat⟩ := create_bandwidth_nodes_spec E bandwidth nu h
  have heq : classes' = classes := by
    rw [hc'] at hc
    simpa using hc
  subst heq
  have hsorted := create_bandwidth_nodes_class_sorted E bandwidth nu classes' hc h
  obtain ⟨-, -, hall, -, -⟩ := sorted_array_facts bandwidth
  rw [← hflat] at hall
  have hinj : ∀ c₁ ∈ classes', ∀ c₂ ∈ classes', c₁.bandwidth = c₂.bandwidth → c₁ = c₂ := by
    have hnd : (classes'.map (·.bandwidth)).Nodup := hlt.imp (fun h => ne_of_lt h)
    intro c₁ h₁ c₂ h₂ h12
    exact List.inj_on_of_nodup_map hnd h₁ h₂ h12
  intro c hmem
  have hcnz : c.bandwidth ≠ 0 := by
    have := (hbw c.bandwidth).mp (List.mem_map_of_mem _ hmem)
    simpa using (List.mem_filter.mp this).2
  refine List.eq_of_perm_of_sorted ?_ (hsorted c hmem) (nodes_with_bandwidth_sorted _ _)
  rw [List.perm_ext_iff_of_nodup ((hsorted c hmem).imp (fun h => ne_of_lt h))
    ((nodes_with_bandwidth_sorted bandwidth c.bandwidth).imp (fun h => ne_of_lt h))]
  intro n
  rw [mem_nodes_with_bandwidth]
  constructor
  · intro hn
    obtain ⟨i, hi, hni, -, hb⟩ := hP c hmem n hn
    exact ⟨i, hi, hni, hb.symm⟩
  · rintro ⟨i, hi, rfl, hv⟩
    have hin := hall i hi (by rw [hv]; exact hcnz)
    obtain ⟨c', hc'mem, hic'⟩ := List.mem_flatMap.mp hin
    obtain ⟨j, hj, hij, -, hb⟩ := hP c' hc'mem _ hic'
    have hij' : i = j := by exact_mod_cast hij
    subst hij'
    have : c' = c := hinj c' hc'mem c hmem (by rw [hb, hv])
    rw [← this]
    exact hic'

/-- A strictly ascending list whose entries are exactly 1 and 2 is `[1, 2]`. -/
theorem eq_one_two_of_sorted (l : List Int) (hl : l.Pairwise (· < ·))
    (hm : ∀ b, b ∈ l ↔ b = 1 ∨ b = 2) : l = [1, 2] := by
  refine List.eq_of_perm_of_sorted ?_ hl (by decide)
  rw [List.perm_ext_iff_of_nodup (hl.imp (fun h => ne_of_lt h)) (by decide)]
  intro b
  rw [hm]
  simp

theorem scan_nodes_closest_mem (E : ErrorCodes) (T : Topology) (i : Int) (ns : List Int)
    (s : scan_state) :
    (scan_nodes E T i ns s).closest = s.closest ∨ (scan_nodes E T i ns s).closest ∈ ns := by
  induction ns generalizing s with
  | nil => simp [scan_nodes]
  | cons n ns ih =>
    unfold scan_nodes
    dsimp only
    split_ifs
    · rcases ih ⟨T.numa_distance (T.numa_node_of_cpu i) n, n, s.err⟩ with h | h
      · right; rw [h]; exact List.mem_cons_self _ _
      · right; exact List.mem_cons_of_mem _ h
    · rcases ih { s with err := E.NUMAKIND_ERROR_TIEDISTANCE } with h | h
      · left; exact h
      · right; exact List.mem_cons_of_mem _ h
    · rcases ih s with h | h
      · left; exact h
      · right; exact List.mem_cons_of_mem _ h

/-- Every entry the loop over the CPUs leaves in the map is the entry it found there or a node
of the scanned class. -/
theorem scan_cpus_entries (E : ErrorCodes) (T : Topology) (nodes cs : List Int) (i : Nat)
    (err : Int) : ∀ x ∈ (scan_cpus E T nodes cs i err).2, x ∈ cs ∨ x ∈ nodes := by
  induction cs generalizing i err with
  | nil => simp [scan_cpus]
  | cons c cs ih =>
    unfold scan_cpus
    dsimp only
    intro x hx
    rcases List.mem_cons.mp hx with rfl | hx
    · rcases scan_nodes_closest_mem E T (i : Int) nodes
        { min_distance := INT_MAX, closest := c, err := err } with h | h
      · left; rw [h]; exact List.mem_cons_self _ _
      · right; exact h
    · rcases ih (i + 1) _ x hx with h | h
      · left; exact List.mem_cons_of_mem _ h
      · right; exact h

/-! ## Lemmas: the override -/

theorem env_bandwidth_getElem (num_nodes : Nat) (bm : List Bool) (n : Nat)
    (hn : n < (env_bandwidth num_nodes bm).length) :
    (env_bandwidth num_nodes bm)[n] = if numa_bitmask_isbitset bm n then 2 else 1 := by
  unfold env_bandwidth
  simp

theorem env_bandwidth_length (num_nodes : Nat) (bm : List Bool) :
    (env_bandwidth num_nodes bm).length = num_nodes := by
  simp [env_bandwidth]

/-- The indices at which the override vector holds 2 are the listed nodes, those at which it
holds 1 the others. -/
theorem env_bandwidth_nodes (num_nodes : Nat) (bm : List Bool) :
    nodes_with_bandwidth (env_bandwidth num_nodes bm) 2 =
      ((List.range num_nodes).filter (fun n => numa_bitmask_isbitset bm n)).map Int.ofNat ∧
    nodes_with_bandwidth (env_bandwidth num_nodes bm) 1 =
      ((List.range num_nodes).filter (fun n => !numa_bitmask_isbitset bm n)).map Int.ofNat := by
  unfold nodes_with_bandwidth
  rw [env_bandwidth_length]
  constructor
  · congr 1
    apply List.filter_congr
    intro n hn
    have hn' : n < (env_bandwidth num_nodes bm).length := by
      rw [env_bandwidth_length]; exact List.mem_range.mp hn
    rw [List.getD_eq_getElem _ _ hn', env_bandwidth_getElem]
    cases numa_bitmask_isbitset bm n <;> simp
  · congr 1
    apply List.filter_congr
    intro n hn
    have hn' : n < (env_bandwidth num_nodes bm).length := by
      rw [env_bandwidth_length]; exact List.mem_range.mp hn
    rw [List.getD_eq_getElem _ _ hn', env_bandwidth_getElem]
    cases numa_bitmask_isbitset bm n <;> simp

/-- The classes of an override vector that holds both values: `{1: others}, {2: listed}`. -/
theorem create_bandwidth_nodes_env (E : ErrorCodes) (num_nodes : Nat) (bm : List Bool)
    (hin : ∃ n, n < num_nodes ∧ numa_bitmask_isbitset bm n = true)
    (hout : ∃ n, n < num_nodes ∧ numa_bitmask_isbitset bm n = false) :
    create_bandwidth_nodes E true true (env_bandwidth num_nodes bm) 0 =
      { err := 0, num_unique := 2,
        bandwidth_nodes := some
          [{ bandwidth := 1,
             numanodes := ((List.range num_nodes).filter
               (fun n => !numa_bitmask_isbitset bm n)).map Int.ofNat },
           { bandwidth := 2,
             numanodes := ((List.range num_nodes).filter
               (fun n => numa_bitmask_isbitset bm n)).map Int.ofNat }] } := by
  obtain ⟨n₂, hn₂, hb₂⟩ := hin
  obtain ⟨n₁, hn₁, hb₁⟩ := hout
  have hmem : ∀ b, b ∈ env_bandwidth num_nodes bm ↔
      ∃ n, n < num_nodes ∧ b = if numa_bitmask_isbitset bm n then 2 else 1 := by
    intro b
    unfold env_bandwidth
    simp only [List.mem_map, List.mem_range]
    constructor
    · rintro ⟨n, hn, rfl⟩; exact ⟨n, hn, rfl⟩
    · rintro ⟨n, hn, rfl⟩; exact ⟨n, hn, rfl⟩
  have h2 : (2 : Int) ∈ env_bandwidth num_nodes bm := (hmem 2).mpr ⟨n₂, hn₂, by simp [hb₂]⟩
  have h1 : (1 : Int) ∈ env_bandwidth num_nodes bm := (hmem 1).mpr ⟨n₁, hn₁, by simp [hb₁]⟩
  have hnz : ∃ x ∈ env_bandwidth num_nodes bm, x ≠ 0 := ⟨2, h2, by decide⟩
  obtain ⟨classes, hc, -, -, hlt, hbw, -⟩ :=
    create_bandwidth_nodes_spec E (env_bandwidth num_nodes bm) 0 hnz
  have hnodes := create_bandwidth_nodes_class_nodes E (env_bandwidth num_nodes bm) 0 classes
    (by rw [hc]) hnz
  have hmap : classes.map (·.bandwidth) = [1, 2] := by
    refine eq_one_two_of_sorted _ hlt ?_
    intro b
    rw [hbw, List.mem_filter]
    constructor
    · rintro ⟨hb, -⟩
      obtain ⟨n, -, rfl⟩ := (hmem b).mp hb
      cases numa_bitmask_isbitset bm n <;> simp
    · rintro (rfl | rfl)
      · exact ⟨h1, by decide⟩
      · exact ⟨h2, by decide⟩
  rcases classes with _ | ⟨c₁, _ | ⟨c₂, _ | ⟨c₃, rest⟩⟩⟩
  · simp at hmap
  · simp at hmap
  · simp only [List.map_cons, List.map_nil, List.cons.injEq, and_true] at hmap
    obtain ⟨hb1, hb2⟩ := hmap
    have e₁ := hnodes c₁ (by simp)
    have e₂ := hnodes c₂ (by simp)
    rw [hb1, (env_bandwidth_nodes num_nodes bm).2] at e₁
    rw [hb2, (env_bandwidth_nodes num_nodes bm).1] at e₂
    rw [hc]
    have hc₁ : c₁ = { bandwidth := 1, numanodes := ((List.range num_nodes).filter
        (fun n => !numa_bitmask_isbitset bm n)).map Int.ofNat } := by
      cases c₁; simp only at hb1 e₁; rw [hb1, e₁]
    have hc₂ : c₂ = { bandwidth := 2, numanodes := ((List.range num_nodes).filter
        (fun n => numa_bitmask_isbitset bm n)).map Int.ofNat } := by
      cases c₂; simp only at hb2 e₂; rw [hb2, e₂]
    rw [hc₁, hc₂]
    rfl
  · simp at hmap

/-! ## Further claims about `numakind_hbw_closest_numanode_init` -/

/-- C11: when the override is present and parses to a node set that, within the node range,
is neither empty nor everything (all allocations succeeding), the bandwidth vector built by
initialisation holds 2 at the listed nodes and 1 at the others; classification yields exactly
the two classes `{1: the nodes not listed}` and `{2: the listed nodes}`, in this order and with
the nodes ascending; `high_bandwidth` is 2; and every entry of the map written by the
resolution is a listed node, unless it is still the value -1 of an unresolved entry. -/
theorem init_override_two_classes (E : ErrorCodes) (H : Host)
    (hca : H.closest_malloc_ok = true) (hba : H.bandwidth_malloc_ok = true)
    (hs : H.scratch_malloc_ok = true) (ho : H.output_malloc_ok = true)
    (hbw_nodes_env : String) (henv : H.hbw_nodes_env = some hbw_nodes_env)
    (bm : List Bool) (hparse : H.numa_parse_nodestring hbw_nodes_env = some bm)
    (hin : ∃ n, n < H.NUMA_NUM_NODES ∧ numa_bitmask_isbitset bm n = true)
    (hout : ∃ n, n < H.NUMA_NUM_NODES ∧ numa_bitmask_isbitset bm n = false) :
    (init_bandwidth E H process_start.g).1 = 0 ∧
    (init_bandwidth E H process_start.g).2.length = H.NUMA_NUM_NODES ∧
    (∀ n, n < H.NUMA_NUM_NODES →
      (init_bandwidth E H process_start.g).2[n]? =
        some (if numa_bitmask_isbitset bm n then 2 else 1)) ∧
    init_classes E H process_start.g =
      { err := 0, num_unique := 2,
        bandwidth_nodes := some
          [{ bandwidth := 1,
             numanodes := ((List.range H.NUMA_NUM_NODES).filter
               (fun n => !numa_bitmask_isbitset bm n)).map Int.ofNat },
           { bandwidth := 2,
             numanodes := ((List.range H.NUMA_NUM_NODES).filter
               (fun n => numa_bitmask_isbitset bm n)).map Int.ofNat }] } ∧
    init_high_bandwidth E H process_start.g = 2 ∧
    ∃ closest : List Int,
      (init_resolve E H process_start.g).2 = some closest ∧
      (∀ closest', (numakind_hbw_closest_numanode_init E H process_start.g).closest_numanode =
        some closest' → closest' = closest) ∧
      ∀ x ∈ closest, x = -1 ∨
        ∃ n, n < H.NUMA_NUM_NODES ∧ numa_bitmask_isbitset bm n = true ∧ x = (n : Int) := by
  have halloc : (init_alloc E H process_start.g).1 = 0 := by
    unfold init_alloc
    simp [hca, hba, process_start]
  have hbw : init_bandwidth E H process_start.g = (0, env_bandwidth H.NUMA_NUM_NODES bm) := by
    unfold init_bandwidth
    simp only [halloc, if_true, henv, hparse]
  have hcl : init_classes E H process_start.g =
      create_bandwidth_nodes E true true (env_bandwidth H.NUMA_NUM_NODES bm) 0 := by
    unfold init_classes
    simp only [hbw, if_true, hs, ho]
  rw [create_bandwidth_nodes_env E H.NUMA_NUM_NODES bm hin hout] at hcl
  have hun : init_unique E H process_start.g = 0 := by
    unfold init_unique
    simp [hcl]
  have hhb : init_high_bandwidth E H process_start.g = 2 := by
    unfold init_high_bandwidth
    simp [hcl]
  have hres : init_resolve E H process_start.g =
      ((scan_cpus E H.topology
          (((List.range H.NUMA_NUM_NODES).filter
            (fun n => numa_bitmask_isbitset bm n)).map Int.ofNat)
          (List.replicate H.numa_num_configured_cpus.toNat (-1)) 0 0).1,
        some (scan_cpus E H.topology
          (((List.range H.NUMA_NUM_NODES).filter
            (fun n => numa_bitmask_isbitset bm n)).map Int.ofNat)
          (List.replicate H.numa_num_configured_cpus.toNat (-1)) 0 0).2) := by
    unfold init_resolve
    simp only [hun, if_true, hhb, hcl, Option.getD_some]
    have hfound := set_closest_numanode_found E H.topology
      [{ bandwidth := 1,
         numanodes := ((List.range H.NUMA_NUM_NODES).filter
           (fun n => !numa_bitmask_isbitset bm n)).map Int.ofNat },
       { bandwidth := 2,
         numanodes := ((List.range H.NUMA_NUM_NODES).filter
           (fun n => numa_bitmask_isbitset bm n)).map Int.ofNat }]
      2 H.numa_num_configured_cpus
      { bandwidth := 2,
        numanodes := ((List.range H.NUMA_NUM_NODES).filter
          (fun n => numa_bitmask_isbitset bm n)).map Int.ofNat }
      (by simp [List.find?]) (by decide)
    simp only [List.length_cons, List.length_nil] at hfound
    have h2 : ((0 + 1 + 1 : Nat) : Int) = 2 := rfl
    rw [h2] at hfound
    rw [hfound]
  refine ⟨by rw [hbw], by rw [hbw]; exact env_bandwidth_length _ _, ?_, hcl, hhb, _,
    by rw [hres], ?_, ?_⟩
  · intro n hn
    rw [hbw]
    have hn' : n < (env_bandwidth H.NUMA_NUM_NODES bm).length := by
      rw [env_bandwidth_length]; exact hn
    rw [List.getElem?_eq_getElem hn', env_bandwidth_getElem]
  · intro closest' hc'
    unfold numakind_hbw_closest_numanode_init at hc'
    rw [hres] at hc'
    dsimp only at hc'
    split_ifs at hc' with herr
    exact (Option.some.inj hc').symm
  · intro x hx
    rcases scan_cpus_entries E H.topology _ _ 0 0 x hx with h | h
    · left
      exact List.eq_of_mem_replicate h
    · right
      obtain ⟨n, hn, rfl⟩ := List.mem_map.mp h
      obtain ⟨hr, hb⟩ := List.mem_filter.mp hn
      exact ⟨n, List.mem_range.mp hr, hb, rfl⟩

/-- Witness for C11: four nodes, the override lists the nodes 2 and 3; the classes are
`{1: [0, 1]}` and `{2: [2, 3]}` and both CPUs resolve to node 2. -/
theorem init_override_two_classes_witness :
    init_classes sampleCodes sampleOverrideHost process_start.g =
      { err := 0, num_unique := 2,
        bandwidth_nodes := some
          [{ bandwidth := 1, numanodes := [0, 1] }, { bandwidth := 2, numanodes := [2, 3] }] } ∧
    init_high_bandwidth sampleCodes sampleOverrideHost process_start.g = 2 ∧
    numakind_hbw_closest_numanode_init sampleCodes sampleOverrideHost process_start.g =
      { init_err := 0, num_cpu := 2, closest_numanode := some [2, 2] } :=
  ⟨(init_override_two_classes sampleCodes sampleOverrideHost rfl rfl rfl rfl "2-3" rfl
      [false, false, true, true] rfl ⟨2, by decide, by decide⟩
      ⟨0, by decide, by decide⟩).2.2.2.1.trans (by decide),
    (init_override_two_classes sampleCodes sampleOverrideHost rfl rfl rfl rfl "2-3" rfl
      [false, false, true, true] rfl ⟨2, by decide, by decide⟩
      ⟨0, by decide, by decide⟩).2.2.2.2.1,
    by decide⟩

/-! ## Lemmas: scans without equal distances -/

/-- When the nodes are at pairwise different distances, none of them equal to the minimum the
scan starts from, the scan leaves the error as it was. -/
theorem scan_nodes_no_tie (E : ErrorCodes) (T : Topology) (i : Int) (ns : List Int)
    (s : scan_state)
    (hnd : ns.Pairwise (fun a b =>
      T.numa_distance (T.numa_node_of_cpu i) a ≠ T.numa_distance (T.numa_node_of_cpu i) b))
    (hs : ∀ n ∈ ns, T.numa_distance (T.numa_node_of_cpu i) n ≠ s.min_distance) :
    (scan_nodes E T i ns s).err = s.err := by
  induction ns generalizing s with
  | nil => simp [scan_nodes]
  | cons n ns ih =>
    obtain ⟨hn, hnd'⟩ := List.pairwise_cons.mp hnd
    have hs' : ∀ m ∈ ns, T.numa_distance (T.numa_node_of_cpu i) m ≠ s.min_distance :=
      fun m hm => hs m (List.mem_cons_of_mem _ hm)
    unfold scan_nodes
    dsimp only
    split_ifs with hlt heq
    · exact ih ⟨T.numa_distance (T.numa_node_of_cpu i) n, n, s.err⟩ hnd'
        (fun m hm => (hn m hm).symm)
    · exact absurd heq (hs n (List.mem_cons_self _ _))
    · exact ih s hnd' hs'

/-- When the scan of every CPU leaves the error as it was, so does the loop over the CPUs. -/
theorem scan_cpus_no_tie (E : ErrorCodes) (T : Topology) (nodes cs : List Int) (i : Nat)
    (err : Int)
    (h : ∀ j, ∀ hj : j < cs.length, ∀ e,
      (scan_nodes E T ((i + j : Nat) : Int) nodes
        { min_distance := INT_MAX, closest := cs[j], err := e }).err = e) :
    (scan_cpus E T nodes cs i err).1 = err := by
  induction cs generalizing i err with
  | nil => simp [scan_cpus]
  | cons c cs ih =>
    unfold scan_cpus
    dsimp only
    have h0 := h 0 (by simp) err
    simp only [Nat.add_zero, List.getElem_cons_zero] at h0
    rw [h0]
    refine ih (i + 1) err ?_
    intro j hj e
    have he : i + (j + 1) = i + 1 + j := by omega
    have := h (j + 1) (by simpa using hj) e
    simp only [List.getElem_cons_succ, he] at this
    exact this

/-- Supporting fact: when the class list holds the target class, the target is not -1, no
class is empty, and for each CPU the nodes of the target class are at pairwise different
distances, all below `INT_MAX`, `set_closest_numanode` returns 0 and maps each CPU to the node
of the class that is strictly closest to it. -/
theorem set_closest_numanode_distinct (E : ErrorCodes) (hE : E.Distinct) (T : Topology)
    (hT : T.InRange) (bandwidth_nodes : List bandwidth_nodes_t) (target num_cpunode : Int)
    (c : bandwidth_nodes_t)
    (hfind : bandwidth_nodes.find? (fun c => c.bandwidth == target) = some c)
    (ht : target ≠ -1)
    (hne : ∀ c ∈ bandwidth_nodes, c.numanodes ≠ [])
    (hdist : ∀ i : Nat, (i : Int) < num_cpunode →
      c.numanodes.Pairwise (fun a b =>
        T.numa_distance (T.numa_node_of_cpu i) a ≠ T.numa_distance (T.numa_node_of_cpu i) b))
    (hmax : ∀ i : Nat, (i : Int) < num_cpunode →
      ∀ n ∈ c.numanodes, T.numa_distance (T.numa_node_of_cpu i) n < INT_MAX) :
    (set_closest_numanode E T bandwidth_nodes.length bandwidth_nodes target num_cpunode).1 = 0 ∧
    (set_closest_numanode E T bandwidth_nodes.length bandwidth_nodes target
      num_cpunode).2.length = num_cpunode.toNat ∧
    ∀ i : Nat, (i : Int) < num_cpunode →
      ∃ node, (set_closest_numanode E T bandwidth_nodes.length bandwidth_nodes target
          num_cpunode).2[i]? = some node ∧
        node ∈ c.numanodes ∧
        ∀ n ∈ c.numanodes, n ≠ node →
          T.numa_distance (T.numa_node_of_cpu i) node < T.numa_distance (T.numa_node_of_cpu i) n := by
  have h0 : (set_closest_numanode E T bandwidth_nodes.length bandwidth_nodes target
      num_cpunode).1 = 0 := by
    rw [set_closest_numanode_found E T bandwidth_nodes target num_cpunode c hfind ht]
    refine scan_cpus_no_tie E T c.numanodes _ 0 0 ?_
    intro j hj e
    have hj' : (j : Int) < num_cpunode := by
      rw [List.length_replicate] at hj; omega
    simp only [Nat.zero_add]
    refine scan_nodes_no_tie E T (j : Int) c.numanodes _ (hdist j hj') ?_
    intro n hn
    exact ne_of_lt (hmax j hj' n hn)
  obtain ⟨c', hfind', -, hlen, hall⟩ := set_closest_numanode_spec E hE T hT bandwidth_nodes
    target num_cpunode hne h0
  have hcc : c' = c := by
    rw [hfind] at hfind'
    exact (Option.some.inj hfind').symm
  subst hcc
  refine ⟨h0, hlen, ?_⟩
  intro i hi
  obtain ⟨node, hget, hmem, hmin, -⟩ := hall i hi
  exact ⟨node, hget, hmem, hmin⟩

/-- The supporting fact at the sample class list, target 2, two CPUs, the sample topology
(node 2 at distance 20, node 3 at distance 30). -/
theorem set_closest_numanode_distinct_witness :
    (set_closest_numanode sampleCodes sampleTopology sampleClasses.length sampleClasses 2 2).1 = 0 ∧
    (set_closest_numanode sampleCodes sampleTopology sampleClasses.length sampleClasses 2
      2).2 = [2, 2] :=
  ⟨(set_closest_numanode_distinct sampleCodes (by decide) sampleTopology sampleTopology_inRange
      sampleClasses 2 2 { bandwidth := 2, numanodes := [2, 3] } (by decide) (by decide)
      (by decide)
      (fun _ _ => by
        show List.Pairwise (fun a b : Int =>
          sampleTopology.numa_distance 0 a ≠ sampleTopology.numa_distance 0 b) [2, 3]
        decide)
      (fun _ _ => by
        show ∀ n ∈ [(2 : Int), 3], sampleTopology.numa_distance 0 n < INT_MAX
        decide)).1,
    by decide⟩

/-- C18, the code at the failing input: the class list holds the target class `{2: [0, 1, 2]}`
(not empty, nodes distinct), there is one CPU, and the nodes are at distances 5, 5 and 3, so
node 2 alone is at the minimum distance and no two nodes are tied at it.  The call writes node
2 into the map and yet returns `NUMAKIND_ERROR_TIEDISTANCE`: the error set when the second 5
met the running minimum 5 is not cleared when 3 becomes the minimum.  With the same nodes
listed as `[2, 0, 1]` (distances 3, 5, 5) the call returns 0. -/
theorem set_closest_numanode_tie_above_minimum :
    ([{ bandwidth := 2, numanodes := [0, 1, 2] }] : List bandwidth_nodes_t).find?
        (fun c => c.bandwidth == 2) = some { bandwidth := 2, numanodes := [0, 1, 2] } ∧
    [(0 : Int), 1, 2].Nodup ∧
    (∀ n ∈ [(0 : Int), 1, 2], n ≠ 2 →
      (if (2 : Int) = 2 then (3 : Int) else 5) < (if n = 2 then 3 else 5)) ∧
    set_closest_numanode sampleCodes
        { numa_node_of_cpu := fun _ => 0, numa_distance := fun _ b => if b = 2 then 3 else 5 }
        1 [{ bandwidth := 2, numanodes := [0, 1, 2] }] 2 1 =
      (sampleCodes.NUMAKIND_ERROR_TIEDISTANCE, [2]) ∧
    sampleCodes.NUMAKIND_ERROR_TIEDISTANCE ≠ 0 ∧
    set_closest_numanode sampleCodes
        { numa_node_of_cpu := fun _ => 0, numa_distance := fun _ b => if b = 2 then 3 else 5 }
        1 [{ bandwidth := 2, numanodes := [2, 0, 1] }] 2 1 =
      (0, [2]) := by
  decide

/-! ## The read of the closest-node map -/

/-- After a successful initialisation, a call with a non-null buffer whose CPU value passes
the test `cpu < g->num_cpu` reads the map at index `cpu`; the read is outside the map exactly
when `cpu` is negative. -/
theorem get_mbind_nodemask_read_outside_iff (E : ErrorCodes) (hE : E.Distinct) (H : Host)
    (hT : H.topology.InRange) (s : process_state)
    (hs : s = process_start ∨ s = pthread_once E H process_start)
    (h0 : (pthread_once E H process_start).g.init_err = 0)
    (bits : List Bool) (maxnode : Nat) (cpu : Int)
    (hc : cpu < (pthread_once E H process_start).g.num_cpu) :
    get_mbind_nodemask_read_index E H s (some bits) cpu = some cpu ∧
    ((numakind_hbw_get_mbind_nodemask E H s (some bits) maxnode cpu).2 = none ↔ cpu < 0) := by
  have hg := pthread_once_start E H
  have h0' := h0
  have hc' := hc
  rw [hg] at h0' hc'
  obtain ⟨c, closest, hcl, -, hclen, -, -, -, -, -⟩ :=
    init_success_map E hE H hT process_start.g h0'
  have hncpu : (numakind_hbw_closest_numanode_init E H process_start.g).num_cpu =
      H.numa_num_configured_cpus := rfl
  rw [hncpu] at hc'
  constructor
  · unfold get_mbind_nodemask_read_index
    rw [pthread_once_of_reachable E H s hs]
    simp only [h0, hc, if_true]
  · unfold numakind_hbw_get_mbind_nodemask
    rw [pthread_once_of_reachable E H s hs]
    dsimp only
    simp only [h0, hc, if_true]
    rw [hg, hcl]
    dsimp only
    by_cases hneg : cpu < 0
    · have : ¬ (0 ≤ cpu ∧ cpu.toNat < closest.length) := by omega
      simp only [this, if_false, hneg]
    · have : 0 ≤ cpu ∧ cpu.toNat < closest.length := by
        rw [hclen]; omega
      simp only [this, and_self, if_true, hneg]
      simp

/-- C21, the code at the failing input: on the sample host the initialisation succeeds with
two CPUs and the map `[2, 2]`; when `sched_getcpu()` returns -1 the call with a non-null buffer
does not return `NUMAKIND_ERROR_GETCPU` but passes the test `cpu < g->num_cpu` and reads the
map at index -1, which is not in `[0, num_cpu)`. -/
theorem get_mbind_nodemask_negative_cpu :
    (pthread_once sampleCodes sampleHost process_start).g =
      { init_err := 0, num_cpu := 2, closest_numanode := some [2, 2] } ∧
    get_mbind_nodemask_read_index sampleCodes sampleHost process_start
      (some [false, false, false, false]) (-1) = some (-1) ∧
    ¬ (0 ≤ (-1 : Int) ∧ (-1 : Int) < (pthread_once sampleCodes sampleHost process_start).g.num_cpu) ∧
    (numakind_hbw_get_mbind_nodemask sampleCodes sampleHost process_start
      (some [false, false, false, false]) 4 (-1)).2 = none ∧
    (numakind_hbw_get_mbind_nodemask sampleCodes sampleHost process_start
      (some [false, false, false, false]) 4 (-1)).2 ≠
        some (sampleCodes.NUMAKIND_ERROR_GETCPU, some [false, false, false, false]) := by
  decide

end Numakind
